import Mathlib

/-
Verification of the workout-plan management application.

The development shallowly embeds the plan-authoring core of the repository:
the editor template model (logic/edit_plan_page.py, dataclasses and the
set-count / RIR widget callbacks), the plan generator (the Generate button
handler of render_edit_plan_page), the plan reader and deletion
(logic/view_plan_page.py), the library synchronizer (app.py, sync_user_data)
and the base-data seeding (logic/init.py, seed_base_data).

Database tables are embedded as lists of row structures together with a
fresh-id counter; every INSERT appends a row and bumps the counter.  The
Supabase/PostgREST calls of the generator commit each insert individually,
so the generator is modelled as a state-passing function whose error result
carries the state reached at the point of failure.  The psycopg2 connection
used by the synchronizer runs all statements of one call inside a single
transaction committed at the end, so the synchronizer is modelled as a
function on a working copy of the database that is either committed whole
or discarded on an exception; a fuel argument selects which statement, if
any, raises.
-/

namespace LiftingApp

/-! ### Template model (logic/edit_plan_page.py, dataclasses) -/

/-- ExerciseTemplate dataclass: name, sets, per-set RIR list, notes. -/
structure ExerciseTemplate where
  name : String := ""
  sets : Nat := 3
  rirs : List Nat := [2, 2, 2]
  notes : String := ""
deriving DecidableEq

/-- WorkoutTemplate dataclass: a named day with an ordered exercise list. -/
structure WorkoutTemplate where
  name : String := ""
  exercises : List ExerciseTemplate := []
deriving DecidableEq

/-- The operations the editor widgets perform on one ExerciseTemplate. -/
inductive TemplateOp
  | decSets
  | incSets
  | setRir (i : Nat) (v : Nat)
  | setName (n : String)
  | setNotes (s : String)

/-- Apply one editor operation to an ExerciseTemplate, exactly as the
widget callbacks do: the minus button decrements sets (floor 1) and
truncates the RIR list; the plus button increments sets (cap 20) and
appends the default RIR 2; the per-set number input stores a value the
widget has clamped to the range 0..5. -/
def applyTemplateOp (op : TemplateOp) (e : ExerciseTemplate) : ExerciseTemplate :=
  match op with
  | .decSets =>
      if 1 < e.sets then
        { e with sets := e.sets - 1, rirs := e.rirs.take (e.sets - 1) }
      else e
  | .incSets =>
      if e.sets < 20 then
        { e with sets := e.sets + 1, rirs := e.rirs ++ [2] }
      else e
  | .setRir i v => { e with rirs := e.rirs.set i (min v 5) }
  | .setName n => { e with name := n }
  | .setNotes s => { e with notes := s }

/-- The operations of the workout-day editor on the template list. -/
inductive EditorOp
  | addDay
  | removeDay (i : Nat)
  | setDayName (i : Nat) (n : String)
  | addExercise (d : Nat)
  | removeExercise (d : Nat) (i : Nat)
  | onExercise (d : Nat) (i : Nat) (op : TemplateOp)

/-- Map a function over the element at one position, leaving others alone. -/
def updateAt (l : List α) (i : Nat) (f : α → α) : List α :=
  l.mapIdx (fun j a => if j = i then f a else a)

/-- Apply one editor operation to the workout template list, as the page
callbacks do: Add Day appends a day named after the new length, Remove Day
pops by position, Add Exercise appends a default ExerciseTemplate. -/
def applyEditorOp (op : EditorOp) (st : List WorkoutTemplate) : List WorkoutTemplate :=
  match op with
  | .addDay => st ++ [{ name := "Day " ++ toString (st.length + 1) }]
  | .removeDay i => st.eraseIdx i
  | .setDayName i n => updateAt st i (fun w => { w with name := n })
  | .addExercise d => updateAt st d (fun w => { w with exercises := w.exercises ++ [{}] })
  | .removeExercise d i => updateAt st d (fun w => { w with exercises := w.exercises.eraseIdx i })
  | .onExercise d i top =>
      updateAt st d (fun w => { w with exercises := updateAt w.exercises i (applyTemplateOp top) })

/-- Invariant of one ExerciseTemplate: the RIR list length equals the set
count, the set count stays in 1..20, every RIR value stays in 0..5. -/
def ExInv (e : ExerciseTemplate) : Prop :=
  e.rirs.length = e.sets ∧ 1 ≤ e.sets ∧ e.sets ≤ 20 ∧ ∀ r ∈ e.rirs, r ≤ 5

instance (e : ExerciseTemplate) : Decidable (ExInv e) := by
  unfold ExInv; infer_instance

/-- Invariant of the whole editor state. -/
def EditorInv (st : List WorkoutTemplate) : Prop :=
  ∀ w ∈ st, ∀ e ∈ w.exercises, ExInv e

instance (st : List WorkoutTemplate) : Decidable (EditorInv st) := by
  unfold EditorInv; infer_instance

theorem exInv_default : ExInv {} := by decide

theorem applyTemplateOp_inv (op : TemplateOp) (e : ExerciseTemplate)
    (h : ExInv e) : ExInv (applyTemplateOp op e) := by
  obtain ⟨hlen, h1, h20, hval⟩ := h
  cases op with
  | decSets =>
      simp only [applyTemplateOp]
      split
      · rename_i hgt
        unfold ExInv
        dsimp only
        refine ⟨?_, by omega, by omega, ?_⟩
        · rw [List.length_take]
          omega
        · intro r hr
          exact hval r (List.take_sublist _ _ |>.mem hr)
      · exact ⟨hlen, h1, h20, hval⟩
  | incSets =>
      simp only [applyTemplateOp]
      split
      · rename_i hlt
        unfold ExInv
        dsimp only
        refine ⟨?_, by omega, by omega, ?_⟩
        · rw [List.length_append, hlen]
          rfl
        · intro r hr
          rcases List.mem_append.mp hr with h | h
          · exact hval r h
          · simp at h; omega
      · exact ⟨hlen, h1, h20, hval⟩
  | setRir i v =>
      simp only [applyTemplateOp]
      unfold ExInv
      dsimp only
      refine ⟨?_, h1, h20, ?_⟩
      · rw [List.length_set, hlen]
      · intro r hr
        rcases List.mem_or_eq_of_mem_set hr with h | h
        · exact hval r h
        · exact h ▸ min_le_right v 5
  | setName n => exact ⟨hlen, h1, h20, hval⟩
  | setNotes s => exact ⟨hlen, h1, h20, hval⟩

theorem updateAt_mem {l : List α} {i : Nat} {f : α → α} {a : α}
    (h : a ∈ updateAt l i f) : a ∈ l ∨ ∃ b ∈ l, a = f b := by
  unfold updateAt at h
  rw [List.mem_mapIdx] at h
  obtain ⟨j, hj, hja⟩ := h
  by_cases hji : j = i
  · right
    subst hji
    simp only [if_pos rfl] at hja
    exact ⟨l[j], List.getElem_mem hj, hja.symm⟩
  · left
    simp only [hji, if_false] at hja
    exact hja ▸ List.getElem_mem hj

theorem applyEditorOp_inv (op : EditorOp) (st : List WorkoutTemplate)
    (h : EditorInv st) : EditorInv (applyEditorOp op st) := by
  cases op with
  | addDay =>
      intro w hw e he
      rcases List.mem_append.mp hw with hw | hw
      · exact h w hw e he
      · simp at hw
        subst hw
        simp at he
  | removeDay i =>
      intro w hw e he
      exact h w (List.eraseIdx_sublist st i |>.mem hw) e he
  | setDayName i n =>
      intro w hw e he
      rcases updateAt_mem hw with hw | ⟨b, hb, rfl⟩
      · exact h w hw e he
      · exact h b hb e he
  | addExercise d =>
      intro w hw e he
      rcases updateAt_mem hw with hw | ⟨b, hb, rfl⟩
      · exact h w hw e he
      · simp only at he
        rcases List.mem_append.mp he with he | he
        · exact h b hb e he
        · simp at he
          subst he
          exact exInv_default
  | removeExercise d i =>
      intro w hw e he
      rcases updateAt_mem hw with hw | ⟨b, hb, rfl⟩
      · exact h w hw e he
      · exact h b hb e (List.eraseIdx_sublist b.exercises i |>.mem he)
  | onExercise d i top =>
      intro w hw e he
      rcases updateAt_mem hw with hw | ⟨b, hb, rfl⟩
      · exact h w hw e he
      · simp only at he
        rcases updateAt_mem he with he | ⟨c, hc, rfl⟩
        · exact h b hb e he
        · exact applyTemplateOp_inv top c (h b hb c hc)

/-- C7.  Every template-model operation preserves the ExerciseTemplate
invariant (RIR list length equals sets, sets in 1..20, RIR values in 0..5);
two plus-button presses take sets from 3 to 5 and append exactly two
default RIR entries of 2; three minus-button presses take sets from 5 to 2
and truncate the RIR list to its first 2 entries. -/
theorem C7_template_ops_preserve_invariant :
    (∀ (op : EditorOp) (st : List WorkoutTemplate),
        EditorInv st → EditorInv (applyEditorOp op st)) ∧
    (∀ e : ExerciseTemplate, ExInv e → e.sets = 3 →
        (applyTemplateOp .incSets (applyTemplateOp .incSets e)).sets = 5 ∧
        (applyTemplateOp .incSets (applyTemplateOp .incSets e)).rirs = e.rirs ++ [2, 2]) ∧
    (∀ e : ExerciseTemplate, ExInv e → e.sets = 5 →
        (applyTemplateOp .decSets (applyTemplateOp .decSets
          (applyTemplateOp .decSets e))).sets = 2 ∧
        (applyTemplateOp .decSets (applyTemplateOp .decSets
          (applyTemplateOp .decSets e))).rirs = e.rirs.take 2) := by
  refine ⟨applyEditorOp_inv, ?_, ?_⟩
  · intro e _ hs
    simp [applyTemplateOp, hs]
  · intro e _ hs
    simp [applyTemplateOp, hs, List.take_take]

/-- Witness for C7 at concrete inputs: a default day list keeps the
invariant under Add Day, and the default exercise resized 3 to 5 gains
two 2-entries. -/
theorem C7_witness :
    EditorInv [{ name := "Day 1", exercises := [{}] }] ∧
    EditorInv (applyEditorOp .addDay [{ name := "Day 1", exercises := [{}] }]) ∧
    (applyTemplateOp .incSets (applyTemplateOp .incSets {})).rirs = [2, 2, 2, 2, 2] := by
  refine ⟨by decide, C7_template_ops_preserve_invariant.1 .addDay _ (by decide), ?_⟩
  have h := C7_template_ops_preserve_invariant.2.1 {} (by decide) (by decide)
  simpa using h.2

/-! ### Database rows and state

Tables are lists of rows plus a fresh-id counter; an INSERT appends a row
carrying the current counter value and bumps the counter.  The user-scoped
tables model the rows visible to the single current user (row-level
security hides other users), so the user_id column is left implicit. -/

structure CatRow where
  id : Nat
  name : String
deriving DecidableEq

structure LibRow where
  id : Nat
  name : String
  defaultNotes : String
deriving DecidableEq

structure LinkRow where
  exerciseId : Nat
  categoryId : Nat
deriving DecidableEq

structure BaseCatRow where
  id : Nat
  name : String
deriving DecidableEq

structure BaseExRow where
  id : Nat
  name : String
  defaultNotes : String
deriving DecidableEq

structure BaseLinkRow where
  exerciseId : Nat
  categoryId : Nat
deriving DecidableEq

structure MacroRow where
  id : Nat
  name : String
deriving DecidableEq

structure MiniRow where
  id : Nat
  macroId : Nat
  name : String
deriving DecidableEq

structure WorkoutRow where
  id : Nat
  miniId : Nat
  name : String
deriving DecidableEq

structure PlannedRow where
  id : Nat
  workoutId : Nat
  exerciseLibraryId : Nat
  sets : Nat
  targetRirJson : List Nat
  notes : String
deriving DecidableEq

structure DB where
  baseCategories : List BaseCatRow := []
  baseExercises : List BaseExRow := []
  baseLinks : List BaseLinkRow := []
  categories : List CatRow := []
  exerciselibrary : List LibRow := []
  exercisecategories : List LinkRow := []
  macrocycles : List MacroRow := []
  minicycles : List MiniRow := []
  workouts : List WorkoutRow := []
  plannedexercises : List PlannedRow := []
  nextId : Nat := 1
deriving DecidableEq

/-! ### Library display data and name lookup
(logic/edit_plan_page.py, _get_exercise_library_data and the
exercise_options / name_lookup construction of render_edit_plan_page) -/

/-- Category names linked to one library exercise, resolved through the
exercisecategories link table as the nested select does. -/
def exerciseCategoryNames (db : DB) (exId : Nat) : List String :=
  (db.exercisecategories.filter (fun l => l.exerciseId = exId)).filterMap
    (fun l => (db.categories.find? (fun c => c.id = l.categoryId)).map (fun c => c.name))

/-- The rows (id, name, joined category names or none) of
_get_exercise_library_data, ordered by exercise name. -/
def exerciseLibraryData (db : DB) : List (Nat × String × Option String) :=
  (db.exerciselibrary.insertionSort (fun a b => a.name ≤ b.name)).map
    (fun r =>
      let cs := exerciseCategoryNames db r.id
      (r.id, r.name, if cs = [] then none else some (String.intercalate ", " cs)))

/-- Display label of one library row: the name, with the joined category
names appended in brackets when present. -/
def displayLabel (name : String) (cats : Option String) : String :=
  match cats with
  | some c => name ++ " [" ++ c ++ "]"
  | none => name

/-- Python dict insertion: an existing key keeps its position but takes the
new value, a new key is appended. -/
def dictInsert (m : List (String × String × Nat)) (k : String) (v : String × Nat) :
    List (String × String × Nat) :=
  if m.any (fun e => e.1 = k) then m.map (fun e => if e.1 = k then (k, v) else e)
  else m ++ [(k, v)]

/-- The name_lookup dict of render_edit_plan_page: display label to
(exercise name, exercise id). -/
def nameLookup (db : DB) : List (String × String × Nat) :=
  (exerciseLibraryData db).foldl
    (fun m r => dictInsert m (displayLabel r.2.1 r.2.2) (r.2.1, r.1)) []

/-- The linear search of the validation loop: the first lookup entry whose
stored exercise name equals the template name yields its library id. -/
def resolveName (lookup : List (String × String × Nat)) (n : String) : Option Nat :=
  (lookup.find? (fun e => e.2.1 = n)).map (fun e => e.2.2)

/-! ### Plan generator (logic/edit_plan_page.py, the Generate button
handler of render_edit_plan_page) -/

/-- An exercise template after the validation loop ran: templates with a
non-empty name that resolved carry the library id the loop stored on the
object; all others carry none. -/
structure VExercise where
  name : String
  sets : Nat
  rirs : List Nat
  notes : String
  libraryId : Option Nat
deriving DecidableEq

def validateExercise (lookup : List (String × String × Nat)) (e : ExerciseTemplate) :
    VExercise :=
  if e.name = "" then ⟨e.name, e.sets, e.rirs, e.notes, none⟩
  else ⟨e.name, e.sets, e.rirs, e.notes, resolveName lookup e.name⟩

/-- The missing_exercises list of the validation loop: each non-empty
template name that the lookup does not resolve, in traversal order, with
repeats. -/
def missingExercises (lookup : List (String × String × Nat))
    (templates : List WorkoutTemplate) : List String :=
  templates.flatMap (fun w =>
    w.exercises.filterMap (fun e =>
      if e.name ≠ "" ∧ (resolveName lookup e.name) = none then some e.name else none))

def insertMacroRow (db : DB) (name : String) : DB × Nat :=
  ({ db with macrocycles := db.macrocycles ++ [⟨db.nextId, name⟩],
             nextId := db.nextId + 1 }, db.nextId)

def insertMiniRow (db : DB) (macroId : Nat) (name : String) : DB × Nat :=
  ({ db with minicycles := db.minicycles ++ [⟨db.nextId, macroId, name⟩],
             nextId := db.nextId + 1 }, db.nextId)

def insertWorkoutRow (db : DB) (miniId : Nat) (name : String) : DB × Nat :=
  ({ db with workouts := db.workouts ++ [⟨db.nextId, miniId, name⟩],
             nextId := db.nextId + 1 }, db.nextId)

def insertPlannedRow (db : DB) (workoutId libId : Nat) (e : VExercise) : DB :=
  { db with
    plannedexercises :=
      db.plannedexercises ++ [⟨db.nextId, workoutId, libId, e.sets, e.rirs, e.notes⟩]
    nextId := db.nextId + 1 }

/-- The fallback of the save loop for a template the validation loop did
not stamp with a library id: look the name up in exerciselibrary directly. -/
def resolveAtSave (db : DB) (e : VExercise) : Option Nat :=
  match e.libraryId with
  | some i => some i
  | none => (db.exerciselibrary.find? (fun r => r.name = e.name)).map (fun r => r.id)

/-- A failed step carries the database state already committed, because
every PostgREST insert commits individually. -/
abbrev SaveResult := Except (DB × String) DB

def insertPlannedList (db : DB) (workoutId : Nat) : List VExercise → SaveResult
  | [] => .ok db
  | e :: rest =>
      match resolveAtSave db e with
      | none => .error (db, "Exercise " ++ e.name ++ " not found in library during final save.")
      | some libId => insertPlannedList (insertPlannedRow db workoutId libId e) workoutId rest

def insertWorkoutList (db : DB) (miniId : Nat) :
    List (String × List VExercise) → SaveResult
  | [] => .ok db
  | (wname, ves) :: rest =>
      let p := insertWorkoutRow db miniId wname
      match insertPlannedList p.1 p.2 ves with
      | .error e => .error e
      | .ok db2 => insertWorkoutList db2 miniId rest

def insertWeekList (db : DB) (macroId : Nat) (ws : List (String × List VExercise)) :
    List Nat → SaveResult
  | [] => .ok db
  | k :: rest =>
      let p := insertMiniRow db macroId ("Week " ++ toString k)
      match insertWorkoutList p.1 p.2 ws with
      | .error e => .error e
      | .ok db2 => insertWeekList db2 macroId ws rest

inductive GenResult
  | success (macroId : Nat)
  | errorEmptyMacroName
  | errorMissing (names : List String)
  | saveFailed (msg : String)
deriving DecidableEq

/-- The Generate button handler: reject an empty macro name; run the
validation loop and reject when any non-empty exercise name fails to
resolve, reporting the distinct missing names; otherwise insert the
macrocycle, then per week a minicycle named Week k, per workout template a
workout, per exercise template a planned exercise.  A failure inside the
expansion is caught and reported, keeping every row already inserted. -/
def generate (db : DB) (macroName : String) (numWeeks : Nat)
    (templates : List WorkoutTemplate) : DB × GenResult :=
  if macroName = "" then (db, .errorEmptyMacroName)
  else
    let lookup := nameLookup db
    let missing := missingExercises lookup templates
    if missing = [] then
      let vts := templates.map (fun w => (w.name, w.exercises.map (validateExercise lookup)))
      let p := insertMacroRow db macroName
      match insertWeekList p.1 p.2 vts (List.range' 1 numWeeks) with
      | .ok db2 => (db2, .success p.2)
      | .error e => (e.1, .saveFailed e.2)
    else (db, .errorMissing missing.dedup)

/-! ### Closed forms of the successful expansion

These functions compute the exact rows the expansion loops append, with
the ids the fresh-id counter assigns: the macrocycle takes one id, then
each week takes one id for its minicycle followed, per workout template,
by one id for the workout and one per planned exercise. -/

def weekName (k : Nat) : String := "Week " ++ toString k

def pesSpec (n0 wid : Nat) : List VExercise → List PlannedRow
  | [] => []
  | e :: rest =>
      ⟨n0, wid, (e.libraryId).getD 0, e.sets, e.rirs, e.notes⟩ :: pesSpec (n0 + 1) wid rest

/-- Ids consumed by one week beyond the minicycle id. -/
def wSize : List (String × List VExercise) → Nat
  | [] => 0
  | (_, ves) :: rest => 1 + ves.length + wSize rest

def wRowsSpec (n0 mid : Nat) : List (String × List VExercise) → List WorkoutRow
  | [] => []
  | (wname, ves) :: rest => ⟨n0, mid, wname⟩ :: wRowsSpec (n0 + 1 + ves.length) mid rest

def wPesSpec (n0 : Nat) : List (String × List VExercise) → List PlannedRow
  | [] => []
  | (_, ves) :: rest => pesSpec (n0 + 1) n0 ves ++ wPesSpec (n0 + 1 + ves.length) rest

def weekSize (ws : List (String × List VExercise)) : Nat := 1 + wSize ws

def weekMinisSpec (n0 mid : Nat) (ws : List (String × List VExercise)) :
    List Nat → List MiniRow
  | [] => []
  | k :: rest => ⟨n0, mid, weekName k⟩ :: weekMinisSpec (n0 + weekSize ws) mid ws rest

def weekWsSpec (n0 : Nat) (ws : List (String × List VExercise)) : List Nat → List WorkoutRow
  | [] => []
  | _ :: rest => wRowsSpec (n0 + 1) n0 ws ++ weekWsSpec (n0 + weekSize ws) ws rest

def weekPesSpec (n0 : Nat) (ws : List (String × List VExercise)) : List Nat → List PlannedRow
  | [] => []
  | _ :: rest => wPesSpec (n0 + 1) ws ++ weekPesSpec (n0 + weekSize ws) ws rest

/-- All validated exercises of a template list carry a stamped library id. -/
def ResolvedW (ws : List (String × List VExercise)) : Prop :=
  ∀ w ∈ ws, ∀ e ∈ w.2, e.libraryId ≠ none

theorem insertPlannedList_ok (ves : List VExercise) (db : DB) (wid : Nat)
    (h : ∀ e ∈ ves, e.libraryId ≠ none) :
    insertPlannedList db wid ves =
      .ok { db with
            plannedexercises := db.plannedexercises ++ pesSpec db.nextId wid ves
            nextId := db.nextId + ves.length } := by
  induction ves generalizing db with
  | nil => simp [insertPlannedList, pesSpec]
  | cons e rest ih =>
      have he : e.libraryId ≠ none := h e (List.mem_cons_self e rest)
      obtain ⟨i, hi⟩ := Option.ne_none_iff_exists'.mp he
      simp only [insertPlannedList, resolveAtSave, hi]
      rw [ih _ (fun x hx => h x (List.mem_cons_of_mem e hx))]
      simp only [insertPlannedRow, pesSpec, hi, Option.getD_some]
      congr 1
      simp [List.append_assoc]
      omega

theorem insertWorkoutList_ok (ws : List (String × List VExercise)) (db : DB) (miniId : Nat)
    (h : ResolvedW ws) :
    insertWorkoutList db miniId ws =
      .ok { db with
            workouts := db.workouts ++ wRowsSpec db.nextId miniId ws
            plannedexercises := db.plannedexercises ++ wPesSpec db.nextId ws
            nextId := db.nextId + wSize ws } := by
  induction ws generalizing db with
  | nil => simp [insertWorkoutList, wRowsSpec, wPesSpec, wSize]
  | cons w rest ih =>
      obtain ⟨wname, ves⟩ := w
      rw [insertWorkoutList]
      have hres : ∀ e ∈ ves, e.libraryId ≠ none :=
        fun e he => h (wname, ves) (List.mem_cons_self _ _) e he
      simp only [insertWorkoutRow]
      rw [insertPlannedList_ok ves _ db.nextId hres]
      simp only
      rw [ih _ (fun x hx => h x (List.mem_cons_of_mem _ hx))]
      simp only [wRowsSpec, wPesSpec, wSize]
      congr 1
      simp [List.append_assoc]
      omega

theorem insertWeekList_ok (ks : List Nat) (ws : List (String × List VExercise))
    (db : DB) (macroId : Nat) (h : ResolvedW ws) :
    insertWeekList db macroId ws ks =
      .ok { db with
            minicycles := db.minicycles ++ weekMinisSpec db.nextId macroId ws ks
            workouts := db.workouts ++ weekWsSpec db.nextId ws ks
            plannedexercises := db.plannedexercises ++ weekPesSpec db.nextId ws ks
            nextId := db.nextId + ks.length * weekSize ws } := by
  induction ks generalizing db with
  | nil => simp [insertWeekList, weekMinisSpec, weekWsSpec, weekPesSpec]
  | cons k rest ih =>
      rw [insertWeekList]
      simp only [insertMiniRow]
      rw [insertWorkoutList_ok ws _ db.nextId h]
      simp only
      rw [ih _]
      have h1 : db.nextId + 1 + wSize ws = db.nextId + weekSize ws := by
        unfold weekSize
        omega
      simp only [h1]
      simp only [weekMinisSpec, weekWsSpec, weekPesSpec, weekName]
      congr 1
      simp [List.append_assoc, weekSize, Nat.succ_mul]
      omega

/-! ### Shape facts about the expansion rows -/

theorem pesSpec_workoutId (n0 wid : Nat) (ves : List VExercise) :
    ∀ p ∈ pesSpec n0 wid ves, p.workoutId = wid := by
  induction ves generalizing n0 with
  | nil => simp [pesSpec]
  | cons e rest ih =>
      intro p hp
      rcases List.mem_cons.mp hp with h | h
      · rw [h]
      · exact ih _ p h

theorem pesSpec_map_proj (n0 wid : Nat) (ves : List VExercise) :
    (pesSpec n0 wid ves).map (fun p => (p.sets, p.targetRirJson, p.notes)) =
      ves.map (fun e => (e.sets, e.rirs, e.notes)) := by
  induction ves generalizing n0 with
  | nil => simp [pesSpec]
  | cons e rest ih => simp [pesSpec, ih]

theorem pesSpec_mem (n0 wid : Nat) (ves : List VExercise) :
    ∀ p ∈ pesSpec n0 wid ves, ∃ e ∈ ves,
      p.exerciseLibraryId = (e.libraryId).getD 0 ∧ p.sets = e.sets ∧
      p.targetRirJson = e.rirs ∧ p.notes = e.notes := by
  induction ves generalizing n0 with
  | nil => simp [pesSpec]
  | cons e rest ih =>
      intro p hp
      rcases List.mem_cons.mp hp with h | h
      · exact ⟨e, List.mem_cons_self _ _, by simp [h]⟩
      · obtain ⟨x, hx, hprops⟩ := ih _ p h
        exact ⟨x, List.mem_cons_of_mem _ hx, hprops⟩

theorem wRowsSpec_length (n0 mid : Nat) (ws : List (String × List VExercise)) :
    (wRowsSpec n0 mid ws).length = ws.length := by
  induction ws generalizing n0 with
  | nil => rfl
  | cons w rest ih => simp [wRowsSpec, ih]

theorem wRowsSpec_map_name (n0 mid : Nat) (ws : List (String × List VExercise)) :
    (wRowsSpec n0 mid ws).map (fun w => w.name) = ws.map (fun w => w.1) := by
  induction ws generalizing n0 with
  | nil => rfl
  | cons w rest ih => simp [wRowsSpec, ih]

theorem wRowsSpec_id_bounds (n0 mid : Nat) (ws : List (String × List VExercise)) :
    ∀ w ∈ wRowsSpec n0 mid ws, n0 ≤ w.id ∧ w.id < n0 + wSize ws := by
  induction ws generalizing n0 with
  | nil => simp [wRowsSpec]
  | cons x rest ih =>
      intro w hw
      simp only [wRowsSpec, wSize] at hw ⊢
      rcases List.mem_cons.mp hw with h | h
      · rw [h]
        dsimp only
        omega
      · have := ih _ w h
        omega

theorem wPesSpec_workoutId_bounds (n0 : Nat) (ws : List (String × List VExercise)) :
    ∀ p ∈ wPesSpec n0 ws, n0 ≤ p.workoutId ∧ p.workoutId < n0 + wSize ws := by
  induction ws generalizing n0 with
  | nil => simp [wPesSpec]
  | cons x rest ih =>
      intro p hp
      simp only [wPesSpec, wSize] at hp ⊢
      rcases List.mem_append.mp hp with h | h
      · have := pesSpec_workoutId _ _ _ p h
        omega
      · have := ih _ p h
        omega

theorem wPesSpec_mem (n0 : Nat) (ws : List (String × List VExercise)) :
    ∀ p ∈ wPesSpec n0 ws, ∃ w ∈ ws, ∃ e ∈ w.2,
      p.exerciseLibraryId = (e.libraryId).getD 0 ∧ p.sets = e.sets ∧
      p.targetRirJson = e.rirs ∧ p.notes = e.notes := by
  induction ws generalizing n0 with
  | nil => simp [wPesSpec]
  | cons x rest ih =>
      intro p hp
      rcases List.mem_append.mp hp with h | h
      · obtain ⟨e, he, hprops⟩ := pesSpec_mem _ _ _ p h
        exact ⟨x, List.mem_cons_self _ _, e, he, hprops⟩
      · obtain ⟨w, hw, e, he, hprops⟩ := ih _ p h
        exact ⟨w, List.mem_cons_of_mem _ hw, e, he, hprops⟩

theorem wAssoc (n0 mid : Nat) (ws : List (String × List VExercise)) :
    ∀ pr ∈ (wRowsSpec n0 mid ws).zip ws, pr.1.name = pr.2.1 ∧
      (wPesSpec n0 ws).filter (fun p => p.workoutId = pr.1.id) =
        pesSpec (pr.1.id + 1) pr.1.id pr.2.2 := by
  induction ws generalizing n0 with
  | nil => simp [wRowsSpec]
  | cons x rest ih =>
      intro pr hpr
      obtain ⟨wname, ves⟩ := x
      obtain ⟨wr, tw⟩ := pr
      simp only [wRowsSpec, wPesSpec, List.zip_cons_cons] at hpr ⊢
      rcases List.mem_cons.mp hpr with h | h
      · cases h
        refine ⟨rfl, ?_⟩
        rw [List.filter_append]
        have h1 : (pesSpec (n0 + 1) n0 ves).filter
            (fun p => p.workoutId = (⟨n0, mid, wname⟩ : WorkoutRow).id) =
            pesSpec (n0 + 1) n0 ves := by
          rw [List.filter_eq_self]
          intro p hp
          simp [pesSpec_workoutId _ _ _ p hp]
        have h2 : (wPesSpec (n0 + 1 + ves.length) rest).filter
            (fun p => p.workoutId = (⟨n0, mid, wname⟩ : WorkoutRow).id) = [] := by
          rw [List.filter_eq_nil_iff]
          intro p hp
          have := wPesSpec_workoutId_bounds _ _ p hp
          simp only [decide_eq_true_eq]
          omega
        rw [h1, h2, List.append_nil]
      · have hmem := List.of_mem_zip h
        have hid := wRowsSpec_id_bounds _ _ _ wr hmem.1
        obtain ⟨hname, hfilter⟩ := ih _ (wr, tw) h
        refine ⟨hname, ?_⟩
        rw [List.filter_append]
        have h1 : (pesSpec (n0 + 1) n0 ves).filter
            (fun p => p.workoutId = (wr, tw).1.id) = [] := by
          rw [List.filter_eq_nil_iff]
          intro p hp
          have := pesSpec_workoutId _ _ _ p hp
          simp only [decide_eq_true_eq]
          omega
        rw [h1, hfilter, List.nil_append]

theorem weekMinisSpec_map_name (n0 mid : Nat) (ws : List (String × List VExercise))
    (ks : List Nat) :
    (weekMinisSpec n0 mid ws ks).map (fun m => m.name) = ks.map weekName := by
  induction ks generalizing n0 with
  | nil => rfl
  | cons k rest ih => simp [weekMinisSpec, ih]

theorem weekMinisSpec_macroId (n0 mid : Nat) (ws : List (String × List VExercise))
    (ks : List Nat) :
    ∀ m ∈ weekMinisSpec n0 mid ws ks, m.macroId = mid := by
  induction ks generalizing n0 with
  | nil => simp [weekMinisSpec]
  | cons k rest ih =>
      intro m hm
      rcases List.mem_cons.mp hm with h | h
      · rw [h]
      · exact ih _ m h

theorem weekWsSpec_length (n0 : Nat) (ws : List (String × List VExercise)) (ks : List Nat) :
    (weekWsSpec n0 ws ks).length = ks.length * ws.length := by
  induction ks generalizing n0 with
  | nil => simp [weekWsSpec]
  | cons k rest ih =>
      simp [weekWsSpec, ih, wRowsSpec_length, Nat.succ_mul]
      omega

theorem weekWsSpec_map_name (n0 : Nat) (ws : List (String × List VExercise)) (ks : List Nat) :
    (weekWsSpec n0 ws ks).map (fun w => w.name) =
      ks.flatMap (fun _ => ws.map (fun w => w.1)) := by
  induction ks generalizing n0 with
  | nil => rfl
  | cons k rest ih => simp [weekWsSpec, ih, wRowsSpec_map_name]

theorem weekWsSpec_id_bounds (n0 : Nat) (ws : List (String × List VExercise)) (ks : List Nat) :
    ∀ w ∈ weekWsSpec n0 ws ks, n0 ≤ w.id ∧ w.id < n0 + ks.length * weekSize ws := by
  induction ks generalizing n0 with
  | nil => simp [weekWsSpec]
  | cons k rest ih =>
      intro w hw
      simp only [weekWsSpec] at hw
      simp only [List.length_cons, Nat.succ_mul]
      rcases List.mem_append.mp hw with h | h
      · have := wRowsSpec_id_bounds _ _ _ w h
        simp only [weekSize] at *
        omega
      · have := ih _ w h
        omega

theorem weekPesSpec_workoutId_bounds (n0 : Nat) (ws : List (String × List VExercise))
    (ks : List Nat) :
    ∀ p ∈ weekPesSpec n0 ws ks, n0 ≤ p.workoutId ∧
      p.workoutId < n0 + ks.length * weekSize ws := by
  induction ks generalizing n0 with
  | nil => simp [weekPesSpec]
  | cons k rest ih =>
      intro p hp
      simp only [weekPesSpec] at hp
      simp only [List.length_cons, Nat.succ_mul]
      rcases List.mem_append.mp hp with h | h
      · have := wPesSpec_workoutId_bounds _ _ p h
        simp only [weekSize] at *
        omega
      · have := ih _ p h
        omega

theorem weekPesSpec_mem (n0 : Nat) (ws : List (String × List VExercise)) (ks : List Nat) :
    ∀ p ∈ weekPesSpec n0 ws ks, ∃ w ∈ ws, ∃ e ∈ w.2,
      p.exerciseLibraryId = (e.libraryId).getD 0 ∧ p.sets = e.sets ∧
      p.targetRirJson = e.rirs ∧ p.notes = e.notes := by
  induction ks generalizing n0 with
  | nil => simp [weekPesSpec]
  | cons k rest ih =>
      intro p hp
      rcases List.mem_append.mp hp with h | h
      · exact wPesSpec_mem _ _ p h
      · exact ih _ p h

theorem weekAssoc (n0 : Nat) (ws : List (String × List VExercise)) (ks : List Nat) :
    ∀ pr ∈ (weekWsSpec n0 ws ks).zip (ks.flatMap (fun _ => ws)), pr.1.name = pr.2.1 ∧
      (weekPesSpec n0 ws ks).filter (fun p => p.workoutId = pr.1.id) =
        pesSpec (pr.1.id + 1) pr.1.id pr.2.2 := by
  induction ks generalizing n0 with
  | nil => simp [weekWsSpec]
  | cons k rest ih =>
      intro pr hpr
      obtain ⟨wr, tw⟩ := pr
      simp only [weekWsSpec, weekPesSpec, List.flatMap_cons] at hpr ⊢
      rw [List.zip_append (by rw [wRowsSpec_length])] at hpr
      rcases List.mem_append.mp hpr with h | h
      · have hmem := List.of_mem_zip h
        have hid := wRowsSpec_id_bounds _ _ _ wr hmem.1
        obtain ⟨hname, hfilter⟩ := wAssoc _ _ _ (wr, tw) h
        refine ⟨hname, ?_⟩
        rw [List.filter_append, hfilter]
        have h2 : (weekPesSpec (n0 + weekSize ws) ws rest).filter
            (fun p => p.workoutId = (wr, tw).1.id) = [] := by
          rw [List.filter_eq_nil_iff]
          intro p hp
          have := weekPesSpec_workoutId_bounds _ _ _ p hp
          simp only [decide_eq_true_eq, weekSize] at *
          omega
        rw [h2, List.append_nil]
      · have hmem := List.of_mem_zip h
        have hid := weekWsSpec_id_bounds _ _ _ wr hmem.1
        obtain ⟨hname, hfilter⟩ := ih _ (wr, tw) h
        refine ⟨hname, ?_⟩
        rw [List.filter_append, hfilter]
        have h1 : (wPesSpec (n0 + 1) ws).filter (fun p => p.workoutId = (wr, tw).1.id) = [] := by
          rw [List.filter_eq_nil_iff]
          intro p hp
          have := wPesSpec_workoutId_bounds _ _ p hp
          simp only [decide_eq_true_eq, weekSize] at *
          omega
        rw [h1, List.nil_append]

/-! ### Facts about the name lookup and the validation loop -/

theorem dictInsert_mem {m : List (String × String × Nat)} {k : String} {v : String × Nat}
    {en : String × String × Nat} (h : en ∈ dictInsert m k v) : en ∈ m ∨ en.2 = v := by
  unfold dictInsert at h
  split at h
  · rw [List.mem_map] at h
    obtain ⟨x, hx, hxe⟩ := h
    by_cases hk : x.1 = k
    · rw [if_pos hk] at hxe
      right
      rw [hxe.symm]
    · rw [if_neg hk] at hxe
      left
      exact hxe ▸ hx
  · rcases List.mem_append.mp h with h | h
    · exact Or.inl h
    · right
      simp at h
      rw [h]

theorem foldl_dictInsert_mem (l : List (Nat × String × Option String))
    (m : List (String × String × Nat)) (Q : String × Nat → Prop)
    (hm : ∀ en ∈ m, Q en.2) (hl : ∀ r ∈ l, Q (r.2.1, r.1)) :
    ∀ en ∈ l.foldl
        (fun m r => dictInsert m (displayLabel r.2.1 r.2.2) (r.2.1, r.1)) m, Q en.2 := by
  induction l generalizing m with
  | nil => exact hm
  | cons r rest ih =>
      intro en hen
      refine ih _ ?_ (fun x hx => hl x (List.mem_cons_of_mem _ hx)) en hen
      intro x hx
      rcases dictInsert_mem hx with h | h
      · exact hm x h
      · rw [h]
        exact hl r (List.mem_cons_self _ _)

theorem nameLookup_mem (db : DB) :
    ∀ en ∈ nameLookup db, ∃ r ∈ db.exerciselibrary, en.2.1 = r.name ∧ en.2.2 = r.id := by
  unfold nameLookup
  refine foldl_dictInsert_mem _ _
    (fun v => ∃ r ∈ db.exerciselibrary, v.1 = r.name ∧ v.2 = r.id) (by simp) ?_
  intro r hr
  unfold exerciseLibraryData at hr
  rw [List.mem_map] at hr
  obtain ⟨row, hrow, hre⟩ := hr
  refine ⟨row, (List.perm_insertionSort _ _).subset hrow, ?_⟩
  rw [hre.symm]
  exact ⟨rfl, rfl⟩

theorem resolveName_mem {db : DB} {n : String} {i : Nat}
    (h : resolveName (nameLookup db) n = some i) :
    ∃ r ∈ db.exerciselibrary, r.name = n ∧ r.id = i := by
  unfold resolveName at h
  rw [Option.map_eq_some'] at h
  obtain ⟨en, hfind, hi⟩ := h
  have hmem := List.mem_of_find?_eq_some hfind
  have hpred := List.find?_some hfind
  simp only [decide_eq_true_eq] at hpred
  obtain ⟨r, hr, hname, hid⟩ := nameLookup_mem db en hmem
  exact ⟨r, hr, by rw [hname.symm, hpred], by rw [hid.symm, hi]⟩

theorem resolveName_none_of_absent (db : DB) (n : String)
    (h : ∀ r ∈ db.exerciselibrary, r.name ≠ n) :
    resolveName (nameLookup db) n = none := by
  by_contra hne
  obtain ⟨i, hi⟩ := Option.ne_none_iff_exists'.mp hne
  obtain ⟨r, hr, hname, _⟩ := resolveName_mem hi
  exact h r hr hname

theorem mem_missingExercises (lookup : List (String × String × Nat))
    (templates : List WorkoutTemplate) (n : String) :
    n ∈ missingExercises lookup templates ↔
      ∃ w ∈ templates, ∃ e ∈ w.exercises, e.name = n ∧ n ≠ "" ∧
        resolveName lookup n = none := by
  unfold missingExercises
  rw [List.mem_flatMap]
  constructor
  · rintro ⟨w, hw, hn⟩
    rw [List.mem_filterMap] at hn
    obtain ⟨e, he, hfe⟩ := hn
    by_cases hc : e.name ≠ "" ∧ resolveName lookup e.name = none
    · rw [if_pos hc] at hfe
      have hen : e.name = n := by injection hfe
      exact ⟨w, hw, e, he, hen, hen ▸ hc.1, hen ▸ hc.2⟩
    · rw [if_neg hc] at hfe
      exact absurd hfe (by simp)
  · rintro ⟨w, hw, e, he, rfl, hne, hres⟩
    refine ⟨w, hw, ?_⟩
    rw [List.mem_filterMap]
    exact ⟨e, he, by rw [if_pos ⟨hne, hres⟩]⟩

theorem missingExercises_eq_nil (lookup : List (String × String × Nat))
    (templates : List WorkoutTemplate)
    (h : ∀ w ∈ templates, ∀ e ∈ w.exercises, e.name = "" ∨ resolveName lookup e.name ≠ none) :
    missingExercises lookup templates = [] := by
  unfold missingExercises
  rw [List.flatMap_eq_nil_iff]
  intro w hw
  rw [List.filterMap_eq_nil_iff]
  intro e he
  rw [if_neg]
  rintro ⟨hne, hres⟩
  rcases h w hw e he with h | h
  · exact hne h
  · exact h hres

theorem validateExercise_proj (lookup : List (String × String × Nat)) (e : ExerciseTemplate) :
    (validateExercise lookup e).sets = e.sets ∧ (validateExercise lookup e).rirs = e.rirs ∧
    (validateExercise lookup e).notes = e.notes := by
  unfold validateExercise
  split
  · exact ⟨rfl, rfl, rfl⟩
  · exact ⟨rfl, rfl, rfl⟩

theorem validateExercise_libraryId (lookup : List (String × String × Nat))
    (e : ExerciseTemplate) (h : ¬ e.name = "") :
    (validateExercise lookup e).libraryId = resolveName lookup e.name := by
  unfold validateExercise
  rw [if_neg h]

/-- C3.  If some exercise template carries a non-empty name with no
exact-name match in the catalog (with a non-empty macro name, so the flow
reaches the exercise validation), generate returns the store unchanged --
zero rows written -- and fails with a validation error whose reported name
list is duplicate-free and contains every such unresolved name. -/
theorem C3_unresolved_names_block_generation
    (db : DB) (macroName : String) (numWeeks : Nat) (templates : List WorkoutTemplate)
    (hname : ¬ macroName = "")
    (hbad : ∃ w ∈ templates, ∃ e ∈ w.exercises, ¬ e.name = "" ∧
      ∀ r ∈ db.exerciselibrary, r.name ≠ e.name) :
    ∃ names, generate db macroName numWeeks templates = (db, .errorMissing names) ∧
      names.Nodup ∧
      ∀ w ∈ templates, ∀ e ∈ w.exercises,
        ¬ e.name = "" → (∀ r ∈ db.exerciselibrary, r.name ≠ e.name) → e.name ∈ names := by
  have hmiss : ¬ missingExercises (nameLookup db) templates = [] := by
    obtain ⟨w, hw, e, he, hne, habs⟩ := hbad
    intro hnil
    have hmem : e.name ∈ missingExercises (nameLookup db) templates := by
      rw [mem_missingExercises]
      exact ⟨w, hw, e, he, rfl, hne, resolveName_none_of_absent db e.name habs⟩
    rw [hnil] at hmem
    exact absurd hmem (List.not_mem_nil _)
  refine ⟨(missingExercises (nameLookup db) templates).dedup, ?_, List.nodup_dedup _, ?_⟩
  · simp only [generate]
    rw [if_neg hname, if_neg hmiss]
  · intro w hw e he hne habs
    rw [List.mem_dedup, mem_missingExercises]
    exact ⟨w, hw, e, he, rfl, hne, resolveName_none_of_absent db e.name habs⟩

/-- C1 (amended).  For a valid generation input -- non-empty macro name,
and every exercise template name non-empty and resolvable through the
library lookup -- whose templates keep the editor invariant that the RIR
list length equals sets, generate succeeds and inserts exactly one
Macrocycle row, numWeeks MiniCycle rows named Week 1 .. Week numWeeks
under it, numWeeks x templates.length Workout rows repeating the authored
template names every week, and for each inserted Workout exactly one
PlannedExercise row per exercise template of its workout template, storing
that template's sets, RIR sequence (of length sets) and notes and
referencing a real catalog row. -/
theorem C1_generate_expansion
    (db : DB) (macroName : String) (numWeeks : Nat) (templates : List WorkoutTemplate)
    (hname : ¬ macroName = "")
    (hres : ∀ w ∈ templates, ∀ e ∈ w.exercises,
      ¬ e.name = "" ∧ ¬ resolveName (nameLookup db) e.name = none)
    (hinv : ∀ w ∈ templates, ∀ e ∈ w.exercises, e.rirs.length = e.sets) :
    ∃ db2,
      generate db macroName numWeeks templates = (db2, .success db.nextId) ∧
      db2.macrocycles = db.macrocycles ++ [⟨db.nextId, macroName⟩] ∧
      (∃ newMinis, db2.minicycles = db.minicycles ++ newMinis ∧
        newMinis.map (fun m => m.name) = (List.range' 1 numWeeks).map weekName ∧
        ∀ m ∈ newMinis, m.macroId = db.nextId) ∧
      (∃ newWs newPes,
        db2.workouts = db.workouts ++ newWs ∧
        db2.plannedexercises = db.plannedexercises ++ newPes ∧
        newWs.length = numWeeks * templates.length ∧
        newWs.map (fun w => w.name) =
          (List.range' 1 numWeeks).flatMap (fun _ => templates.map (fun w => w.name)) ∧
        (∀ p ∈ newPes, p.targetRirJson.length = p.sets ∧
          ∃ r ∈ db.exerciselibrary, p.exerciseLibraryId = r.id) ∧
        (∀ pr ∈ newWs.zip ((List.range' 1 numWeeks).flatMap (fun _ => templates)),
          pr.1.name = pr.2.name ∧
          (newPes.filter (fun p => p.workoutId = pr.1.id)).map
              (fun p => (p.sets, p.targetRirJson, p.notes)) =
            pr.2.exercises.map (fun e => (e.sets, e.rirs, e.notes)))) := by
  have hresolved : ResolvedW (templates.map
      (fun w => (w.name, w.exercises.map (validateExercise (nameLookup db))))) := by
    intro w hw e he
    obtain ⟨w0, hw0, rfl⟩ := List.mem_map.mp hw
    obtain ⟨e0, he0, rfl⟩ := List.mem_map.mp he
    have h0 := hres w0 hw0 e0 he0
    rw [validateExercise_libraryId _ _ h0.1]
    exact h0.2
  have hmiss : missingExercises (nameLookup db) templates = [] :=
    missingExercises_eq_nil _ _ (fun w hw e he => Or.inr (hres w hw e he).2)
  have hweeks := insertWeekList_ok (List.range' 1 numWeeks)
      (templates.map (fun w => (w.name, w.exercises.map (validateExercise (nameLookup db)))))
      { db with macrocycles := db.macrocycles ++ [⟨db.nextId, macroName⟩]
                nextId := db.nextId + 1 } db.nextId hresolved
  have hgen : generate db macroName numWeeks templates =
      ({ db with
          macrocycles := db.macrocycles ++ [⟨db.nextId, macroName⟩]
          minicycles := db.minicycles ++ weekMinisSpec (db.nextId + 1) db.nextId
            (templates.map (fun w =>
              (w.name, w.exercises.map (validateExercise (nameLookup db)))))
            (List.range' 1 numWeeks)
          workouts := db.workouts ++ weekWsSpec (db.nextId + 1)
            (templates.map (fun w =>
              (w.name, w.exercises.map (validateExercise (nameLookup db)))))
            (List.range' 1 numWeeks)
          plannedexercises := db.plannedexercises ++ weekPesSpec (db.nextId + 1)
            (templates.map (fun w =>
              (w.name, w.exercises.map (validateExercise (nameLookup db)))))
            (List.range' 1 numWeeks)
          nextId := db.nextId + 1 + (List.range' 1 numWeeks).length *
            weekSize (templates.map (fun w =>
              (w.name, w.exercises.map (validateExercise (nameLookup db))))) },
        .success db.nextId) := by
    simp only [generate, insertMacroRow]
    rw [if_neg hname, if_pos hmiss, hweeks]
  refine ⟨_, hgen, rfl, ⟨_, rfl, ?_, ?_⟩, ⟨_, _, rfl, rfl, ?_, ?_, ?_, ?_⟩⟩
  · exact weekMinisSpec_map_name _ _ _ _
  · exact weekMinisSpec_macroId _ _ _ _
  · rw [weekWsSpec_length, List.length_range', List.length_map]
  · rw [weekWsSpec_map_name]
    congr 1
    funext k
    rw [List.map_map]
    rfl
  · intro p hp
    obtain ⟨w, hw, e, he, hid, hsets, hrirs, hnotes⟩ := weekPesSpec_mem _ _ _ p hp
    obtain ⟨w0, hw0, rfl⟩ := List.mem_map.mp hw
    obtain ⟨e0, he0, rfl⟩ := List.mem_map.mp he
    obtain ⟨hne, hr⟩ := hres w0 hw0 e0 he0
    obtain ⟨i, hi⟩ := Option.ne_none_iff_exists'.mp hr
    have hlib : (validateExercise (nameLookup db) e0).libraryId = some i := by
      rw [validateExercise_libraryId _ _ hne, hi]
    obtain ⟨r, hrmem, hrname, hrid⟩ := resolveName_mem hi
    constructor
    · rw [hrirs, hsets, (validateExercise_proj _ e0).1, (validateExercise_proj _ e0).2.1]
      exact hinv w0 hw0 e0 he0
    · exact ⟨r, hrmem, by rw [hid, hlib, Option.getD_some, hrid]⟩
  · intro pr hpr
    have hflat : (List.range' 1 numWeeks).flatMap
        (fun _ => templates.map (fun w =>
          (w.name, w.exercises.map (validateExercise (nameLookup db))))) =
        ((List.range' 1 numWeeks).flatMap (fun _ => templates)).map
          (fun w => (w.name, w.exercises.map (validateExercise (nameLookup db)))) := by
      rw [List.map_flatMap]
    have hz : ((pr.1, (pr.2.name, pr.2.exercises.map (validateExercise (nameLookup db))))) ∈
        (weekWsSpec (db.nextId + 1)
          (templates.map (fun w =>
            (w.name, w.exercises.map (validateExercise (nameLookup db)))))
          (List.range' 1 numWeeks)).zip
          ((List.range' 1 numWeeks).flatMap (fun _ =>
            templates.map (fun w =>
              (w.name, w.exercises.map (validateExercise (nameLookup db)))))) := by
      rw [hflat, List.zip_map_right]
      exact List.mem_map.mpr ⟨pr, hpr, rfl⟩
    obtain ⟨hname2, hfilter⟩ := weekAssoc _ _ _ _ hz
    refine ⟨hname2, ?_⟩
    rw [hfilter, pesSpec_map_proj, List.map_map]
    refine List.map_congr_left (fun e he => ?_)
    obtain ⟨h1, h2, h3⟩ := validateExercise_proj (nameLookup db) e
    simp [Function.comp, h1, h2, h3]

/-! ### Concrete stores and template lists for witnesses -/

/-- A small user catalog: the exercise Deadlift (id 2) tagged Back (id 1). -/
def sampleDb : DB :=
  { categories := [⟨1, "Back"⟩], exerciselibrary := [⟨2, "Deadlift", ""⟩],
    exercisecategories := [⟨2, 1⟩], nextId := 3 }

def sampleTemplates : List WorkoutTemplate :=
  [⟨"Day 1", [⟨"Deadlift", 3, [2, 2, 1], ""⟩]⟩]

/-- One day whose first exercise was added in the editor and never given a
name, followed by a resolvable Deadlift. -/
def emptyNameFirst : List WorkoutTemplate :=
  [⟨"Day 1", [⟨"", 3, [2, 2, 2], ""⟩, ⟨"Deadlift", 3, [2, 2, 1], ""⟩]⟩]

/-- One day with a resolvable Deadlift followed by an unnamed exercise. -/
def emptyNameLast : List WorkoutTemplate :=
  [⟨"Day 1", [⟨"Deadlift", 3, [2, 2, 1], ""⟩, ⟨"", 3, [2, 2, 2], ""⟩]⟩]

def notFoundMsg : String := "Exercise  not found in library during final save."

/-- Witness for C1 at the scenario of the spec: Winter Bulk, two weeks,
one day with one Deadlift exercise; all hypotheses hold and generation
succeeds with the new macrocycle id. -/
theorem C1_witness :
    ((¬ "Winter Bulk" = "") ∧
      (∀ w ∈ sampleTemplates, ∀ e ∈ w.exercises,
        ¬ e.name = "" ∧ ¬ resolveName (nameLookup sampleDb) e.name = none) ∧
      (∀ w ∈ sampleTemplates, ∀ e ∈ w.exercises, e.rirs.length = e.sets)) ∧
    ∃ db2, generate sampleDb "Winter Bulk" 2 sampleTemplates = (db2, .success 3) := by
  refine ⟨⟨by decide, by decide, by decide⟩, ?_⟩
  obtain ⟨db2, hgen, _⟩ := C1_generate_expansion sampleDb "Winter Bulk" 2 sampleTemplates
    (by decide) (by decide) (by decide)
  exact ⟨db2, hgen⟩

/-- Counterexample to C1 as stated.  The input satisfies the stated
preconditions -- non-empty macro name and every NON-EMPTY exercise name
resolvable -- yet the generator does not insert one PlannedExercise row for
the resolvable Deadlift template: it aborts on the unnamed template (whose
empty name the validation loop never checks and the save loop cannot
resolve) before any planned row is written, and reports a save failure. -/
theorem C1_counterexample :
    ((¬ "Winter Bulk" = "") ∧
      (∀ w ∈ emptyNameFirst, ∀ e ∈ w.exercises,
        ¬ e.name = "" → ¬ resolveName (nameLookup sampleDb) e.name = none)) ∧
    (generate sampleDb "Winter Bulk" 1 emptyNameFirst).2 = .saveFailed notFoundMsg ∧
    (generate sampleDb "Winter Bulk" 1 emptyNameFirst).1.plannedexercises.length = 0 := by
  refine ⟨⟨by decide, by decide⟩, by decide, by decide⟩

/-! ### State reached by a failed expansion (no rollback) -/

def resState : SaveResult → DB
  | .ok d => d
  | .error e => e.1

theorem insertPlannedList_state (ves : List VExercise) (db : DB) (wid : Nat) :
    (resState (insertPlannedList db wid ves)).macrocycles = db.macrocycles ∧
    (resState (insertPlannedList db wid ves)).minicycles = db.minicycles ∧
    (resState (insertPlannedList db wid ves)).workouts = db.workouts ∧
    ∃ t, (resState (insertPlannedList db wid ves)).plannedexercises =
      db.plannedexercises ++ t := by
  induction ves generalizing db with
  | nil => exact ⟨rfl, rfl, rfl, [], by simp [insertPlannedList, resState]⟩
  | cons e rest ih =>
      rw [insertPlannedList]
      cases hres : resolveAtSave db e with
      | none => exact ⟨rfl, rfl, rfl, [], by simp [resState]⟩
      | some i =>
          dsimp only
          obtain ⟨h1, h2, h3, t, h4⟩ := ih (insertPlannedRow db wid i e)
          refine ⟨h1, h2, h3, ?_⟩
          refine ⟨⟨db.nextId, wid, i, e.sets, e.rirs, e.notes⟩ :: t, ?_⟩
          rw [h4]
          simp [insertPlannedRow, List.append_assoc]

theorem insertWorkoutList_state (ws : List (String × List VExercise)) (db : DB)
    (miniId : Nat) :
    (resState (insertWorkoutList db miniId ws)).macrocycles = db.macrocycles ∧
    (resState (insertWorkoutList db miniId ws)).minicycles = db.minicycles ∧
    (∃ t, (resState (insertWorkoutList db miniId ws)).workouts = db.workouts ++ t) ∧
    ∃ t, (resState (insertWorkoutList db miniId ws)).plannedexercises =
      db.plannedexercises ++ t := by
  induction ws generalizing db with
  | nil => exact ⟨rfl, rfl, ⟨[], by simp [insertWorkoutList, resState]⟩,
      ⟨[], by simp [insertWorkoutList, resState]⟩⟩
  | cons w rest ih =>
      obtain ⟨wname, ves⟩ := w
      rw [insertWorkoutList]
      simp only [insertWorkoutRow]
      obtain ⟨p1, p2, p3, tp, p4⟩ := insertPlannedList_state ves
        { db with workouts := db.workouts ++ [⟨db.nextId, miniId, wname⟩]
                  nextId := db.nextId + 1 } db.nextId
      dsimp only at p1 p2 p3 p4
      cases hpl : insertPlannedList
          { db with workouts := db.workouts ++ [⟨db.nextId, miniId, wname⟩]
                    nextId := db.nextId + 1 } db.nextId ves with
      | error err =>
          rw [hpl] at p1 p2 p3 p4
          dsimp only [resState] at p1 p2 p3 p4 ⊢
          exact ⟨p1, p2, ⟨_, p3⟩, tp, p4⟩
      | ok db2 =>
          rw [hpl] at p1 p2 p3 p4
          dsimp only [resState] at p1 p2 p3 p4
          obtain ⟨q1, q2, q3, tq, q4⟩ := ih db2
          refine ⟨by rw [q1, p1], by rw [q2, p2], ?_, ?_⟩
          · obtain ⟨t3, q3⟩ := q3
            exact ⟨_, by rw [q3, p3, List.append_assoc]⟩
          · exact ⟨_, by rw [q4, p4, List.append_assoc]⟩

theorem insertWeekList_state (ks : List Nat) (ws : List (String × List VExercise))
    (db : DB) (macroId : Nat) :
    (resState (insertWeekList db macroId ws ks)).macrocycles = db.macrocycles ∧
    (∃ t, (resState (insertWeekList db macroId ws ks)).minicycles = db.minicycles ++ t) ∧
    (∃ t, (resState (insertWeekList db macroId ws ks)).workouts = db.workouts ++ t) ∧
    ∃ t, (resState (insertWeekList db macroId ws ks)).plannedexercises =
      db.plannedexercises ++ t := by
  induction ks generalizing db with
  | nil => exact ⟨rfl, ⟨[], by simp [insertWeekList, resState]⟩,
      ⟨[], by simp [insertWeekList, resState]⟩, ⟨[], by simp [insertWeekList, resState]⟩⟩
  | cons k rest ih =>
      rw [insertWeekList]
      simp only [insertMiniRow]
      obtain ⟨p1, p2, p3, tp, p4⟩ := insertWorkoutList_state ws
        { db with minicycles := db.minicycles ++ [⟨db.nextId, macroId, "Week " ++ toString k⟩]
                  nextId := db.nextId + 1 } db.nextId
      cases hwl : insertWorkoutList
          { db with minicycles := db.minicycles ++ [⟨db.nextId, macroId, "Week " ++ toString k⟩]
                    nextId := db.nextId + 1 } db.nextId ws with
      | error err =>
          rw [hwl] at p1 p2 p3 p4
          simp only [resState] at p1 p2 p3 p4 ⊢
          refine ⟨p1, ⟨_, by rw [p2]⟩, p3, tp, p4⟩
      | ok db2 =>
          rw [hwl] at p1 p2 p3 p4
          simp only [resState] at p1 p2 p3 p4
          obtain ⟨q1, q2, q3, q4⟩ := ih db2
          refine ⟨by rw [q1, p1], ?_, ?_, ?_⟩
          · obtain ⟨t2, q2⟩ := q2
            exact ⟨_, by rw [q2, p2, List.append_assoc]⟩
          · obtain ⟨t3, q3⟩ := q3
            obtain ⟨t3p, p3⟩ := p3
            exact ⟨_, by rw [q3, p3, List.append_assoc]⟩
          · obtain ⟨t4, q4⟩ := q4
            exact ⟨_, by rw [q4, p4, List.append_assoc]⟩

/-- C2 (amended).  The expansion is not transactional: every insert
commits on its own, in parent-before-child order.  When the save fails
mid-expansion the operation stops and reports the failure, but the rows
already inserted stay visible: the state returned with the failure still
contains the freshly inserted macrocycle row, and each child table is the
old table extended by whatever rows were inserted before the failure --
nothing is rolled back. -/
theorem C2_failed_save_keeps_partial_rows
    (db : DB) (macroName : String) (numWeeks : Nat) (templates : List WorkoutTemplate)
    (dbf : DB) (msg : String)
    (h : generate db macroName numWeeks templates = (dbf, .saveFailed msg)) :
    dbf.macrocycles = db.macrocycles ++ [⟨db.nextId, macroName⟩] ∧
    (∃ t, dbf.minicycles = db.minicycles ++ t) ∧
    (∃ t, dbf.workouts = db.workouts ++ t) ∧
    (∃ t, dbf.plannedexercises = db.plannedexercises ++ t) := by
  by_cases hn : macroName = ""
  · simp [generate, hn] at h
  · simp only [generate, insertMacroRow] at h
    rw [if_neg hn] at h
    by_cases hm : missingExercises (nameLookup db) templates = []
    · rw [if_pos hm] at h
      obtain ⟨s1, s2, s3, s4⟩ := insertWeekList_state (List.range' 1 numWeeks)
        (templates.map (fun w => (w.name, w.exercises.map (validateExercise (nameLookup db)))))
        { db with macrocycles := db.macrocycles ++ [⟨db.nextId, macroName⟩]
                  nextId := db.nextId + 1 } db.nextId
      cases hw : insertWeekList
          { db with macrocycles := db.macrocycles ++ [⟨db.nextId, macroName⟩]
                    nextId := db.nextId + 1 } db.nextId
          (templates.map (fun w => (w.name, w.exercises.map (validateExercise (nameLookup db)))))
          (List.range' 1 numWeeks) with
      | ok db2 =>
          rw [hw] at h
          simp at h
      | error err =>
          rw [hw] at h
          dsimp only at h
          rw [Prod.mk.injEq] at h
          obtain ⟨hdbf, hmsg⟩ := h
          rw [hw] at s1 s2 s3 s4
          dsimp only [resState] at s1 s2 s3 s4
          rw [hdbf] at s1 s2 s3 s4
          exact ⟨s1, s2, s3, s4⟩
    · rw [if_neg hm] at h
      simp at h

/-- Witness for C2 at a concrete failing expansion: the save fails on the
unnamed second exercise after everything before it was inserted, and the
returned state extends the original store rather than equalling it. -/
theorem C2_witness :
    ∃ t1 t2 t3,
      (generate sampleDb "Winter Bulk" 1 emptyNameLast).1.macrocycles =
        sampleDb.macrocycles ++ [⟨3, "Winter Bulk"⟩] ∧
      (generate sampleDb "Winter Bulk" 1 emptyNameLast).1.minicycles =
        sampleDb.minicycles ++ t1 ∧
      (generate sampleDb "Winter Bulk" 1 emptyNameLast).1.workouts =
        sampleDb.workouts ++ t2 ∧
      (generate sampleDb "Winter Bulk" 1 emptyNameLast).1.plannedexercises =
        sampleDb.plannedexercises ++ t3 := by
  obtain ⟨h1, ⟨t1, h2⟩, ⟨t2, h3⟩, ⟨t3, h4⟩⟩ := C2_failed_save_keeps_partial_rows
    sampleDb "Winter Bulk" 1 emptyNameLast
    (generate sampleDb "Winter Bulk" 1 emptyNameLast).1 notFoundMsg (by decide)
  exact ⟨t1, t2, t3, h1, h2, h3, h4⟩

/-- Counterexample to C2 as stated.  On this input one planned-exercise
insert fails, so by the claim no row of the expansion may stay visible;
yet the state returned with the failure holds the macrocycle, one
minicycle, one workout and one of the two planned exercises -- a proper
subset of the intended expansion remains for readers. -/
theorem C2_counterexample :
    (generate sampleDb "Winter Bulk" 1 emptyNameLast).2 = .saveFailed notFoundMsg ∧
    (generate sampleDb "Winter Bulk" 1 emptyNameLast).1.macrocycles.length = 1 ∧
    (generate sampleDb "Winter Bulk" 1 emptyNameLast).1.minicycles.length = 1 ∧
    (generate sampleDb "Winter Bulk" 1 emptyNameLast).1.workouts.length = 1 ∧
    (generate sampleDb "Winter Bulk" 1 emptyNameLast).1.plannedexercises.length = 1 := by
  decide

def squatTemplates : List WorkoutTemplate :=
  [⟨"Day 1", [⟨"Squat", 3, [2, 2, 1], ""⟩, ⟨"Squat", 4, [2, 2, 2, 2], ""⟩]⟩]

/-- Witness for C3: the name Squat is absent from the sample catalog, so
generation fails with a duplicate-free report and writes nothing. -/
theorem C3_witness :
    ((¬ "Winter Bulk" = "") ∧
      (∃ w ∈ squatTemplates, ∃ e ∈ w.exercises, ¬ e.name = "" ∧
        ∀ r ∈ sampleDb.exerciselibrary, r.name ≠ e.name)) ∧
    ∃ names, generate sampleDb "Winter Bulk" 4 squatTemplates =
      (sampleDb, .errorMissing names) ∧ names.Nodup := by
  refine ⟨⟨by decide, by decide⟩, ?_⟩
  obtain ⟨names, hgen, hnodup, _⟩ := C3_unresolved_names_block_generation sampleDb
    "Winter Bulk" 4 squatTemplates (by decide) (by decide)
  exact ⟨names, hgen, hnodup⟩

/-! ### Plan reader (logic/view_plan_page.py) -/

structure PEDetail where
  id : Nat
  sets : Nat
  targetRirJson : List Nat
  notes : String
  exerciseName : Option String
  categoryNames : List String
deriving DecidableEq

structure WorkoutDetail where
  id : Nat
  name : String
  plannedexercises : List PEDetail
deriving DecidableEq

structure MiniDetail where
  id : Nat
  name : String
  workouts : List WorkoutDetail
deriving DecidableEq

structure MacroDetail where
  id : Nat
  name : String
  minicycles : List MiniDetail
deriving DecidableEq

def peDetail (db : DB) (p : PlannedRow) : PEDetail :=
  let lib := db.exerciselibrary.find? (fun r => r.id = p.exerciseLibraryId)
  { id := p.id, sets := p.sets, targetRirJson := p.targetRirJson, notes := p.notes
    exerciseName := lib.map (fun r => r.name)
    categoryNames := match lib with
      | some r => exerciseCategoryNames db r.id
      | none => [] }

def workoutDetail (db : DB) (w : WorkoutRow) : WorkoutDetail :=
  { id := w.id, name := w.name
    plannedexercises :=
      (db.plannedexercises.filter (fun p => p.workoutId = w.id)).map (peDetail db) }

def miniDetail (db : DB) (m : MiniRow) : MiniDetail :=
  { id := m.id, name := m.name
    workouts := (db.workouts.filter (fun w => w.miniId = m.id)).map (workoutDetail db) }

/-- The nested select of _fetch_full_macro_cycle_details: the macrocycle
with the given id together with its minicycles, their workouts and their
planned exercises joined with library names and category names; none when
no row matches (the single() error is caught and None returned). -/
def get_macrocycle_detail (db : DB) (macroId : Nat) : Option MacroDetail :=
  (db.macrocycles.find? (fun m => m.id = macroId)).map (fun m =>
    { id := m.id, name := m.name
      minicycles := (db.minicycles.filter (fun x => x.macroId = m.id)).map (miniDetail db) })

/-- delete_macrocycle of _render_danger_zone: one DELETE on macrocycles by
id.
Modelled from the spec: the table schema (schema/schema.sql, absent from
the sources here) declares cascading foreign keys -- the comment above the
delete call and section 4.5 of the specification state that deleting a
macrocycle cascades to minicycles, workouts and planned exercises -- so
the store removes the whole subtree with the row. -/
def delete_macrocycle (db : DB) (macroId : Nat) : DB :=
  let deadMinis := (db.minicycles.filter (fun m => m.macroId = macroId)).map (fun m => m.id)
  let deadWorkouts :=
    (db.workouts.filter (fun w => w.miniId ∈ deadMinis)).map (fun w => w.id)
  { db with
    macrocycles := db.macrocycles.filter (fun m => ¬ m.id = macroId)
    minicycles := db.minicycles.filter (fun m => ¬ m.macroId = macroId)
    workouts := db.workouts.filter (fun w => ¬ w.miniId ∈ deadMinis)
    plannedexercises := db.plannedexercises.filter (fun p => ¬ p.workoutId ∈ deadWorkouts) }

/-- C6.  After delete_macrocycle the detail fetch for that id returns
none, no minicycle under the macrocycle remains, no workout under any of
its minicycles remains, and no planned exercise under any of those
workouts remains. -/
theorem C6_delete_macrocycle_cascades (db : DB) (macroId : Nat) :
    get_macrocycle_detail (delete_macrocycle db macroId) macroId = none ∧
    (∀ m ∈ (delete_macrocycle db macroId).minicycles, m.macroId ≠ macroId) ∧
    (∀ w ∈ (delete_macrocycle db macroId).workouts,
      ∀ m ∈ db.minicycles, m.macroId = macroId → w.miniId ≠ m.id) ∧
    (∀ p ∈ (delete_macrocycle db macroId).plannedexercises,
      ∀ w ∈ db.workouts, ∀ m ∈ db.minicycles,
        m.macroId = macroId → w.miniId = m.id → p.workoutId ≠ w.id) := by
  refine ⟨?_, ?_, ?_, ?_⟩
  · unfold get_macrocycle_detail
    rw [List.find?_eq_none.mpr, Option.map_none']
    intro m hm
    simp only [delete_macrocycle] at hm
    rw [List.mem_filter] at hm
    simpa using hm.2
  · intro m hm
    simp only [delete_macrocycle] at hm
    rw [List.mem_filter] at hm
    simpa using hm.2
  · intro w hw m hm hmac heq
    simp only [delete_macrocycle, List.mem_filter] at hw
    have h2 := hw.2
    rw [decide_eq_true_eq] at h2
    apply h2
    rw [List.mem_map]
    refine ⟨m, ?_, heq.symm⟩
    rw [List.mem_filter]
    exact ⟨hm, by simp [hmac]⟩
  · intro p hp w hw m hm hmac hmini heq
    simp only [delete_macrocycle, List.mem_filter] at hp
    have h2 := hp.2
    rw [decide_eq_true_eq] at h2
    apply h2
    rw [List.mem_map]
    refine ⟨w, ?_, heq.symm⟩
    rw [List.mem_filter]
    refine ⟨hw, ?_⟩
    rw [decide_eq_true_eq, List.mem_map, hmini]
    refine ⟨m, ?_, rfl⟩
    rw [List.mem_filter]
    exact ⟨hm, by simp [hmac]⟩

/-! ### Display ordering of render_view_plan_page -/

/-- The in-place sorts render_view_plan_page applies before rendering:
minicycles by name, workouts by name within each minicycle, planned
exercises by id within each workout. -/
def displayDetail (d : MacroDetail) : MacroDetail :=
  { d with minicycles :=
      (d.minicycles.insertionSort (fun a b => a.name ≤ b.name)).map (fun m =>
        { m with workouts :=
            (m.workouts.insertionSort (fun a b => a.name ≤ b.name)).map (fun w =>
              { w with plannedexercises :=
                  w.plannedexercises.insertionSort (fun a b => a.id ≤ b.id) }) }) }

instance : IsTotal MiniDetail (fun a b => a.name ≤ b.name) :=
  ⟨fun a b => le_total a.name b.name⟩

instance : IsTrans MiniDetail (fun a b => a.name ≤ b.name) :=
  ⟨fun _ _ _ h1 h2 => le_trans h1 h2⟩

instance : IsTotal WorkoutDetail (fun a b => a.name ≤ b.name) :=
  ⟨fun a b => le_total a.name b.name⟩

instance : IsTrans WorkoutDetail (fun a b => a.name ≤ b.name) :=
  ⟨fun _ _ _ h1 h2 => le_trans h1 h2⟩

instance : IsTotal PEDetail (fun a b => a.id ≤ b.id) :=
  ⟨fun a b => le_total a.id b.id⟩

instance : IsTrans PEDetail (fun a b => a.id ≤ b.id) :=
  ⟨fun _ _ _ h1 h2 => le_trans h1 h2⟩

theorem orderedInsert_of_forall {α : Type _} {r : α → α → Prop} [DecidableRel r]
    {a : α} {l : List α} (h : ∀ b ∈ l, r a b) : l.orderedInsert r a = a :: l := by
  cases l with
  | nil => rfl
  | cons b t =>
      rw [List.orderedInsert, if_pos (h b (List.mem_cons_self b t))]

theorem insertionSort_of_pairwise {α : Type _} {r : α → α → Prop} [DecidableRel r]
    {l : List α} (h : l.Pairwise r) : List.insertionSort r l = l := by
  induction l with
  | nil => rfl
  | cons a t ih =>
      rw [List.pairwise_cons] at h
      rw [List.insertionSort, ih h.2]
      exact orderedInsert_of_forall h.1

/-- C8.  The reader displays minicycles sorted by name, workouts sorted by
name within each minicycle, and planned exercises sorted ascending by id
within each workout; the displayed minicycle names are a permutation of
the fetched ones, and whenever the fetched planned exercises of a workout
already carry strictly increasing ids -- which the generator guarantees by
inserting them in authored order under a monotonically assigned id -- the
displayed exercise list is exactly the fetched one, so the authored order
is preserved. -/
theorem C8_reader_sorts_display (d : MacroDetail)
    (hids : ∀ m ∈ d.minicycles, ∀ w ∈ m.workouts,
      (w.plannedexercises.map (fun p => p.id)).Pairwise (· < ·)) :
    (displayDetail d).minicycles.Pairwise (fun a b => a.name ≤ b.name) ∧
    (∀ m ∈ (displayDetail d).minicycles,
      m.workouts.Pairwise (fun a b => a.name ≤ b.name)) ∧
    (∀ m ∈ (displayDetail d).minicycles, ∀ w ∈ m.workouts,
      w.plannedexercises.Pairwise (fun a b => a.id ≤ b.id)) ∧
    ((displayDetail d).minicycles.map (fun m => m.name)).Perm
      (d.minicycles.map (fun m => m.name)) ∧
    (∀ m ∈ d.minicycles, ∀ w ∈ m.workouts, ∃ m' ∈ (displayDetail d).minicycles,
      ∃ w' ∈ m'.workouts, w'.id = w.id ∧ w'.name = w.name ∧
        w'.plannedexercises = w.plannedexercises) := by
  refine ⟨?_, ?_, ?_, ?_, ?_⟩
  · rw [displayDetail]
    dsimp only
    rw [List.pairwise_map]
    exact List.sorted_insertionSort (fun a b : MiniDetail => a.name ≤ b.name) d.minicycles
  · intro m hm
    rw [displayDetail] at hm
    dsimp only at hm
    rw [List.mem_map] at hm
    obtain ⟨m0, _, rfl⟩ := hm
    dsimp only
    rw [List.pairwise_map]
    exact List.sorted_insertionSort (fun a b : WorkoutDetail => a.name ≤ b.name) m0.workouts
  · intro m hm w hw
    rw [displayDetail] at hm
    dsimp only at hm
    rw [List.mem_map] at hm
    obtain ⟨m0, _, rfl⟩ := hm
    dsimp only at hw
    rw [List.mem_map] at hw
    obtain ⟨w0, _, rfl⟩ := hw
    dsimp only
    exact List.sorted_insertionSort (fun a b : PEDetail => a.id ≤ b.id) w0.plannedexercises
  · rw [displayDetail]
    dsimp only
    rw [List.map_map]
    exact (List.perm_insertionSort _ _).map _
  · intro m hm w hw
    have hperm := hids m hm w hw
    rw [List.pairwise_map] at hperm
    refine ⟨{ m with workouts :=
        (m.workouts.insertionSort (fun a b => a.name ≤ b.name)).map (fun w =>
          { w with plannedexercises :=
              w.plannedexercises.insertionSort (fun a b => a.id ≤ b.id) }) }, ?_, ?_⟩
    · rw [displayDetail]
      dsimp only
      rw [List.mem_map]
      exact ⟨m, ((List.perm_insertionSort _ _).mem_iff).mpr hm, rfl⟩
    · refine ⟨{ w with plannedexercises :=
          w.plannedexercises.insertionSort (fun a b => a.id ≤ b.id) }, ?_, rfl, rfl, ?_⟩
      · dsimp only
        rw [List.mem_map]
        exact ⟨w, ((List.perm_insertionSort _ _).mem_iff).mpr hw, rfl⟩
      · dsimp only
        exact insertionSort_of_pairwise (hperm.imp (fun h => le_of_lt h))

/-- A concrete fetched tree with the weeks out of order and strictly
increasing planned-exercise ids, used to witness the display ordering. -/
def sampleDetail : MacroDetail :=
  { id := 3, name := "Winter Bulk",
    minicycles := [
      ⟨7, "Week 2", [⟨8, "Day 1", [⟨9, 3, [2, 2, 1], "", some "Deadlift", ["Back"]⟩]⟩]⟩,
      ⟨4, "Week 1", [⟨5, "Day 1", [⟨6, 3, [2, 2, 1], "", some "Deadlift", ["Back"]⟩]⟩]⟩] }

/-- Witness for C8: the sample tree satisfies the id hypothesis and its
display lists the minicycles in name order. -/
theorem C8_witness :
    (∀ m ∈ sampleDetail.minicycles, ∀ w ∈ m.workouts,
      (w.plannedexercises.map (fun p => p.id)).Pairwise (· < ·)) ∧
    (displayDetail sampleDetail).minicycles.Pairwise (fun a b => a.name ≤ b.name) := by
  have h := C8_reader_sorts_display sampleDetail (by decide)
  exact ⟨by decide, h.1⟩

/-! ### Library synchronizer (app.py, sync_user_data)

The psycopg2 connection autocommits nothing: every statement of one
sync_user_data call runs in a single transaction, committed at the end;
an exception triggers rollback, leaving the committed database unchanged.
The embedding therefore runs the statements on a working copy and either
commits the whole copy or discards it.  The fuel argument injects the
exception: each executed SQL statement consumes one tick, and a statement
executed when the fuel hits zero raises.  Fuel none never raises (the
normal run).  The two conditional per-phase count info log lines of the
source are omitted from the log model. -/

inductive LogEntry
  | warn (msg : String)
  | err (msg : String)
  | info (msg : String)
deriving DecidableEq

structure AppState where
  db : DB := {}
  syncedUsers : List String := []
  seededBase : Bool := false
  log : List LogEntry := []
deriving DecidableEq

abbrev Fuel := Option Nat

def tick : Fuel → Option Fuel
  | none => some none
  | some 0 => none
  | some (k + 1) => some (some k)

/-- INSERT INTO categories ... ON CONFLICT (name, user_id) DO NOTHING. -/
def insertCategoryIfAbsent (db : DB) (n : String) : DB :=
  if n ∈ db.categories.map (fun c => c.name) then db
  else { db with categories := db.categories ++ [⟨db.nextId, n⟩], nextId := db.nextId + 1 }

/-- INSERT INTO exerciselibrary ... ON CONFLICT (name, user_id) DO NOTHING. -/
def insertExerciseIfAbsent (db : DB) (n notes : String) : DB :=
  if n ∈ db.exerciselibrary.map (fun r => r.name) then db
  else { db with exerciselibrary := db.exerciselibrary ++ [⟨db.nextId, n, notes⟩]
                 nextId := db.nextId + 1 }

/-- INSERT INTO exercisecategories ... ON CONFLICT DO NOTHING.
Modelled from the spec: the unique constraint on the link table that makes
ON CONFLICT DO NOTHING suppress duplicate links is declared in
schema/schema.sql, absent from the sources here; section 4.1 of the
specification states that link insertion is a no-op when the link already
exists. -/
def insertLinkIfAbsent (db : DB) (exId catId : Nat) : DB :=
  if (exId, catId) ∈ db.exercisecategories.map (fun l => (l.exerciseId, l.categoryId)) then db
  else { db with exercisecategories := db.exercisecategories ++ [⟨exId, catId⟩] }

/-- The base name-to-notes dict; for a repeated name the last row wins. -/
def baseNotesOf (db : DB) (n : String) : String :=
  ((db.baseExercises.reverse.find? (fun r => r.name = n)).map
    (fun r => r.defaultNotes)).getD ""

/-- The (exercise name, category name) pairs of the base link join. -/
def basePairs (db : DB) : List (String × String) :=
  db.baseLinks.filterMap (fun l =>
    (db.baseExercises.find? (fun e => e.id = l.exerciseId)).bind (fun e =>
      (db.baseCategories.find? (fun c => c.id = l.categoryId)).map (fun c => (e.name, c.name))))

/-- Category names present in base and absent from the user catalog. -/
def missingCats (db : DB) : List String :=
  ((db.baseCategories.map (fun c => c.name)).dedup).filter
    (fun n => ¬ n ∈ db.categories.map (fun c => c.name))

/-- Exercise names present in base and absent from the user catalog. -/
def missingExs (db : DB) : List String :=
  ((db.baseExercises.map (fun e => e.name)).dedup).filter
    (fun n => ¬ n ∈ db.exerciselibrary.map (fun r => r.name))

def syncCatsLoop : List String → DB → Fuel → Option (DB × Fuel)
  | [], db, f => some (db, f)
  | n :: rest, db, f =>
      match tick f with
      | none => none
      | some f1 => syncCatsLoop rest (insertCategoryIfAbsent db n) f1

def syncExsLoop (notesOf : String → String) : List String → DB → Fuel → Option (DB × Fuel)
  | [], db, f => some (db, f)
  | n :: rest, db, f =>
      match tick f with
      | none => none
      | some f1 => syncExsLoop notesOf rest (insertExerciseIfAbsent db n (notesOf n)) f1

def syncLinksLoop : List (String × String) → DB → Fuel → Option (DB × Fuel)
  | [], db, f => some (db, f)
  | pr :: rest, db, f =>
      match tick f with
      | none => none
      | some f1 =>
      match tick f1 with
      | none => none
      | some f2 =>
      match db.exerciselibrary.find? (fun r => r.name = pr.1),
            db.categories.find? (fun c => c.name = pr.2) with
      | some er, some cr =>
          match tick f2 with
          | none => none
          | some f3 => syncLinksLoop rest (insertLinkIfAbsent db er.id cr.id) f3
      | _, _ => syncLinksLoop rest db f2

/-- The transaction body of sync_user_data: two SELECTs and the category
inserts, two SELECTs and the exercise inserts, the join SELECT and per
pair two id SELECTs plus the link insert when both ids resolve, then the
commit.  Returns none when a statement raises. -/
def syncBody (db : DB) (f : Fuel) : Option (DB × Fuel) :=
  (tick f).bind (fun f1 =>
  (tick f1).bind (fun f2 =>
  (syncCatsLoop (missingCats db) db f2).bind (fun p1 =>
  (tick p1.2).bind (fun f3 =>
  (tick f3).bind (fun f4 =>
  (syncExsLoop (baseNotesOf p1.1) (missingExs p1.1) p1.1 f4).bind (fun p2 =>
  (tick p2.2).bind (fun f5 =>
  (syncLinksLoop (basePairs p2.1) p2.1 f5).bind (fun p3 =>
  (tick p3.2).map (fun f6 => (p3.1, f6))))))))))

def noneUserWarning : LogEntry :=
  .warn "Attempted to sync user data with a None user_id."

def syncErrorEntry : LogEntry := .err "Error during user data sync"

/-- sync_user_data: warn and return on a missing user id; return when the
session flag for the user is set; otherwise run the transaction body and
either commit it, set the flag and log completion, or roll it back and log
the error (non-fatally: the function always returns a state). -/
def sync_user_data (uid : Option String) (st : AppState) (f : Fuel) : AppState :=
  match uid with
  | none => { st with log := st.log ++ [noneUserWarning] }
  | some u =>
      if u ∈ st.syncedUsers then st
      else
        let st1 := { st with log :=
          st.log ++ [LogEntry.info ("Syncing base data for user " ++ u ++ "...")] }
        match syncBody st1.db f with
        | some p =>
            { st1 with db := p.1
                       syncedUsers := st1.syncedUsers ++ [u]
                       log := st1.log ++ [LogEntry.info ("Data sync complete for user " ++ u ++ ".")] }
        | none => { st1 with log := st1.log ++ [syncErrorEntry] }

/-! ### Base-data seeding (logic/init.py, seed_base_data) -/

def insertBaseCategoryIfAbsent (db : DB) (n : String) : DB :=
  if n ∈ db.baseCategories.map (fun c => c.name) then db
  else { db with baseCategories := db.baseCategories ++ [⟨db.nextId, n⟩]
                 nextId := db.nextId + 1 }

/-- INSERT ... ON CONFLICT (name) DO NOTHING RETURNING id, then SELECT id
when the insert hit the conflict. -/
def findOrInsertBaseCategory (db : DB) (n : String) : DB × Nat :=
  match db.baseCategories.find? (fun c => c.name = n) with
  | some c => (db, c.id)
  | none => ({ db with baseCategories := db.baseCategories ++ [⟨db.nextId, n⟩]
                       nextId := db.nextId + 1 }, db.nextId)

def insertBaseLinkIfAbsent (db : DB) (exId catId : Nat) : DB :=
  if (exId, catId) ∈ db.baseLinks.map (fun l => (l.exerciseId, l.categoryId)) then db
  else { db with baseLinks := db.baseLinks ++ [⟨exId, catId⟩] }

def insert_base_exercise_to_library (db : DB) (exName notes : String)
    (catNames : List String) : DB :=
  let p : DB × Nat :=
    match db.baseExercises.find? (fun e => e.name = exName) with
    | some e => (db, e.id)
    | none => ({ db with baseExercises := db.baseExercises ++ [⟨db.nextId, exName, notes⟩]
                         nextId := db.nextId + 1 }, db.nextId)
  catNames.foldl (fun d cn =>
    let q := findOrInsertBaseCategory d cn.trim
    insertBaseLinkIfAbsent q.1 p.2 q.2) p.1

def commonCategories : List String :=
  ["Chest", "Back", "Shoulders", "Biceps", "Triceps", "Quads", "Hamstrings", "Glutes",
   "Calves", "Core", "Forearms", "Full Body", "Upper Body", "Lower Body", "Push", "Pull",
   "Legs", "Compound", "Isolation"]

def exerciseSeedData : List (String × String × List String) :=
  [("Bench Press (Barbell)", "", ["Chest", "Triceps", "Shoulders", "Compound", "Upper Body", "Push"]),
   ("Pull Up", "", ["Back", "Biceps", "Forearms", "Compound", "Upper Body", "Pull"]),
   ("Deadlift", "", ["Back", "Hamstrings", "Glutes", "Forearms", "Compound", "Full Body"]),
   ("Squat (Barbell)", "", ["Quads", "Glutes", "Hamstrings", "Compound", "Lower Body", "Legs"]),
   ("Overhead Press (Barbell)", "", ["Shoulders", "Triceps", "Compound", "Upper Body", "Push"]),
   ("Bent-Over Row (Barbell)", "", ["Back", "Biceps", "Compound", "Upper Body", "Pull"]),
   ("Bicep Curl (Dumbbell)", "", ["Biceps", "Isolation", "Upper Body", "Pull"]),
   ("Tricep Extension (Dumbbell)", "", ["Triceps", "Isolation", "Upper Body", "Push"]),
   ("Leg Press", "", ["Quads", "Glutes", "Hamstrings", "Compound", "Lower Body", "Legs"]),
   ("Lateral Raise (Dumbbell)", "", ["Shoulders", "Isolation", "Upper Body", "Push"]),
   ("Romanian Deadlift (Barbell)", "", ["Hamstrings", "Glutes", "Isolation", "Lower Body", "Legs"]),
   ("Plank", "", ["Core", "Isolation", "Full Body"])]

/-- seed_base_data: a no-op when the session seed flag is set; otherwise
insert each missing common category, then each seed exercise with its
category tags through insert_base_exercise_to_library, and set the flag. -/
def seed_base_data (st : AppState) : AppState :=
  if st.seededBase then st
  else
    let db1 := commonCategories.foldl insertBaseCategoryIfAbsent st.db
    let db2 := exerciseSeedData.foldl
      (fun d e => insert_base_exercise_to_library d e.1 e.2.1 e.2.2) db1
    { st with db := db2, seededBase := true
              log := st.log ++ [LogEntry.info "Seeding base data...", LogEntry.info "Base data seeding complete."] }

/-! ### What the sync loops compute -/

/-- The per-pair step of the link phase: resolve both ids in the user
catalog and insert the link when both resolve. -/
def linkStep (db : DB) (pr : String × String) : DB :=
  match db.exerciselibrary.find? (fun r => r.name = pr.1),
        db.categories.find? (fun c => c.name = pr.2) with
  | some er, some cr => insertLinkIfAbsent db er.id cr.id
  | _, _ => db

/-- The committed result of a successful sync transaction. -/
def syncPure (db : DB) : DB :=
  let db1 := (missingCats db).foldl insertCategoryIfAbsent db
  let db2 := (missingExs db1).foldl
    (fun d n => insertExerciseIfAbsent d n (baseNotesOf db1 n)) db1
  (basePairs db2).foldl linkStep db2

theorem syncCatsLoop_some : ∀ (names : List String) (db : DB) (f : Fuel) (p : DB × Fuel),
    syncCatsLoop names db f = some p → p.1 = names.foldl insertCategoryIfAbsent db := by
  intro names
  induction names with
  | nil =>
      intro db f p h
      simp only [syncCatsLoop] at h
      injection h with h1
      rw [h1.symm]
      rfl
  | cons n rest ih =>
      intro db f p h
      simp only [syncCatsLoop] at h
      rcases htick : tick f with _ | f1
      all_goals rw [htick] at h
      · simp at h
      · exact ih _ _ _ h

theorem syncCatsLoop_fuelless : ∀ (names : List String) (db : DB),
    syncCatsLoop names db none = some (names.foldl insertCategoryIfAbsent db, none) := by
  intro names
  induction names with
  | nil => intro db; rfl
  | cons n rest ih => intro db; simp only [syncCatsLoop, tick]; exact ih _

theorem syncExsLoop_some (notesOf : String → String) :
    ∀ (names : List String) (db : DB) (f : Fuel) (p : DB × Fuel),
    syncExsLoop notesOf names db f = some p →
      p.1 = names.foldl (fun d n => insertExerciseIfAbsent d n (notesOf n)) db := by
  intro names
  induction names with
  | nil =>
      intro db f p h
      simp only [syncExsLoop] at h
      injection h with h1
      rw [h1.symm]
      rfl
  | cons n rest ih =>
      intro db f p h
      simp only [syncExsLoop] at h
      rcases htick : tick f with _ | f1
      all_goals rw [htick] at h
      · simp at h
      · exact ih _ _ _ h

theorem syncExsLoop_fuelless (notesOf : String → String) : ∀ (names : List String) (db : DB),
    syncExsLoop notesOf names db none =
      some (names.foldl (fun d n => insertExerciseIfAbsent d n (notesOf n)) db, none) := by
  intro names
  induction names with
  | nil => intro db; rfl
  | cons n rest ih => intro db; simp only [syncExsLoop, tick]; exact ih _

theorem syncLinksLoop_some : ∀ (prs : List (String × String)) (db : DB) (f : Fuel)
    (p : DB × Fuel), syncLinksLoop prs db f = some p → p.1 = prs.foldl linkStep db := by
  intro prs
  induction prs with
  | nil =>
      intro db f p h
      simp only [syncLinksLoop] at h
      injection h with h1
      rw [h1.symm]
      rfl
  | cons pr rest ih =>
      intro db f p h
      simp only [syncLinksLoop] at h
      rcases h1 : tick f with _ | f1
      · rw [h1] at h
        simp at h
      · rw [h1] at h
        dsimp only at h
        rcases h2 : tick f1 with _ | f2
        · rw [h2] at h
          simp at h
        · rw [h2] at h
          dsimp only at h
          rcases her : db.exerciselibrary.find? (fun r => r.name = pr.1) with _ | er
          all_goals rcases hcr : db.categories.find? (fun c => c.name = pr.2) with _ | cr
          all_goals rw [her, hcr] at h
          all_goals simp only [List.foldl_cons, linkStep, her, hcr]
          · exact ih _ _ _ h
          · exact ih _ _ _ h
          · exact ih _ _ _ h
          · dsimp only at h
            rcases h3 : tick f2 with _ | f3
            · rw [h3] at h
              simp at h
            · rw [h3] at h
              exact ih _ _ _ h

theorem syncLinksLoop_fuelless : ∀ (prs : List (String × String)) (db : DB),
    syncLinksLoop prs db none = some (prs.foldl linkStep db, none) := by
  intro prs
  induction prs with
  | nil => intro db; rfl
  | cons pr rest ih =>
      intro db
      simp only [syncLinksLoop, tick]
      rcases her : db.exerciselibrary.find? (fun r => r.name = pr.1) with _ | er
      all_goals rcases hcr : db.categories.find? (fun c => c.name = pr.2) with _ | cr
      all_goals simp only [List.foldl_cons, linkStep, her, hcr, tick]
      all_goals exact ih _

theorem syncBody_some (db : DB) (f : Fuel) (p : DB × Fuel)
    (h : syncBody db f = some p) : p.1 = syncPure db := by
  simp only [syncBody, Option.bind_eq_some, Option.map_eq_some'] at h
  obtain ⟨f1, _, f2, _, p1, hc1, f3, _, f4, _, p2, hc2, f5, _, p3, hc3, f6, _, hfin⟩ := h
  have hp1 := syncCatsLoop_some _ _ _ _ hc1
  have hp2 := syncExsLoop_some _ _ _ _ _ hc2
  have hp3 := syncLinksLoop_some _ _ _ _ hc3
  rw [hfin.symm]
  simp only [syncPure]
  rw [hp3, hp2, hp1]

theorem syncBody_fuelless (db : DB) : syncBody db none = some (syncPure db, none) := by
  simp only [syncBody, tick, Option.some_bind, Option.map_some', syncCatsLoop_fuelless,
    syncExsLoop_fuelless, syncLinksLoop_fuelless, syncPure]

/-! ### Growth-only and duplicate-freedom facts -/

/-- One table only grew: the new value is the old list plus a tail of rows
whose keys were absent from the old list. -/
def ExtMissing {α β : Type _} (key : α → β) (a b : List α) : Prop :=
  ∃ t, b = a ++ t ∧ ∀ x ∈ t, ¬ key x ∈ a.map key

theorem extMissing_refl {α β : Type _} (key : α → β) (a : List α) : ExtMissing key a a :=
  ⟨[], by simp⟩

theorem extMissing_trans {α β : Type _} (key : α → β) {a b c : List α}
    (h1 : ExtMissing key a b) (h2 : ExtMissing key b c) : ExtMissing key a c := by
  obtain ⟨t1, rfl, m1⟩ := h1
  obtain ⟨t2, rfl, m2⟩ := h2
  refine ⟨t1 ++ t2, by rw [List.append_assoc], ?_⟩
  intro x hx
  rcases List.mem_append.mp hx with h | h
  · exact m1 x h
  · intro hmem
    exact m2 x h (by rw [List.map_append]; exact List.mem_append.mpr (Or.inl hmem))

def CatalogExtends (a b : DB) : Prop :=
  ExtMissing (fun c : CatRow => c.name) a.categories b.categories ∧
  ExtMissing (fun r : LibRow => r.name) a.exerciselibrary b.exerciselibrary ∧
  ExtMissing (fun l : LinkRow => (l.exerciseId, l.categoryId))
    a.exercisecategories b.exercisecategories ∧
  b.baseCategories = a.baseCategories ∧ b.baseExercises = a.baseExercises ∧
  b.baseLinks = a.baseLinks

theorem catalogExtends_refl (a : DB) : CatalogExtends a a :=
  ⟨extMissing_refl _ _, extMissing_refl _ _, extMissing_refl _ _, rfl, rfl, rfl⟩

theorem catalogExtends_trans {a b c : DB} (h1 : CatalogExtends a b)
    (h2 : CatalogExtends b c) : CatalogExtends a c :=
  ⟨extMissing_trans _ h1.1 h2.1, extMissing_trans _ h1.2.1 h2.2.1,
   extMissing_trans _ h1.2.2.1 h2.2.2.1, h2.2.2.2.1.trans h1.2.2.2.1,
   h2.2.2.2.2.1.trans h1.2.2.2.2.1, h2.2.2.2.2.2.trans h1.2.2.2.2.2⟩

theorem insertCategoryIfAbsent_extends (db : DB) (n : String) :
    CatalogExtends db (insertCategoryIfAbsent db n) := by
  unfold insertCategoryIfAbsent
  split
  · exact catalogExtends_refl db
  · rename_i hn
    refine ⟨⟨[⟨db.nextId, n⟩], rfl, ?_⟩, extMissing_refl _ _, extMissing_refl _ _,
      rfl, rfl, rfl⟩
    intro x hx
    simp at hx
    rw [hx]
    exact hn

theorem insertExerciseIfAbsent_extends (db : DB) (n notes : String) :
    CatalogExtends db (insertExerciseIfAbsent db n notes) := by
  unfold insertExerciseIfAbsent
  split
  · exact catalogExtends_refl db
  · rename_i hn
    refine ⟨extMissing_refl _ _, ⟨[⟨db.nextId, n, notes⟩], rfl, ?_⟩, extMissing_refl _ _,
      rfl, rfl, rfl⟩
    intro x hx
    simp at hx
    rw [hx]
    exact hn

theorem insertLinkIfAbsent_extends (db : DB) (exId catId : Nat) :
    CatalogExtends db (insertLinkIfAbsent db exId catId) := by
  unfold insertLinkIfAbsent
  split
  · exact catalogExtends_refl db
  · rename_i hn
    refine ⟨extMissing_refl _ _, extMissing_refl _ _, ⟨[⟨exId, catId⟩], rfl, ?_⟩,
      rfl, rfl, rfl⟩
    intro x hx
    simp at hx
    rw [hx]
    exact hn

theorem linkStep_extends (db : DB) (pr : String × String) :
    CatalogExtends db (linkStep db pr) := by
  unfold linkStep
  split
  · exact insertLinkIfAbsent_extends db _ _
  · exact catalogExtends_refl db

theorem foldl_extends {α : Type _} (R : DB → DB → Prop) (hrefl : ∀ d, R d d)
    (htrans : ∀ a b c, R a b → R b c → R a c) (step : DB → α → DB)
    (hstep : ∀ d x, R d (step d x)) : ∀ (l : List α) (d : DB), R d (l.foldl step d) := by
  intro l
  induction l with
  | nil => intro d; exact hrefl d
  | cons x rest ih => intro d; exact htrans _ _ _ (hstep d x) (ih (step d x))

theorem syncPure_extends (db : DB) : CatalogExtends db (syncPure db) := by
  have h1 : CatalogExtends db ((missingCats db).foldl insertCategoryIfAbsent db) :=
    foldl_extends CatalogExtends catalogExtends_refl
      (fun _ _ _ x y => catalogExtends_trans x y) insertCategoryIfAbsent
      insertCategoryIfAbsent_extends _ _
  have h2 : CatalogExtends ((missingCats db).foldl insertCategoryIfAbsent db)
      ((missingExs ((missingCats db).foldl insertCategoryIfAbsent db)).foldl
        (fun d n => insertExerciseIfAbsent d n
          (baseNotesOf ((missingCats db).foldl insertCategoryIfAbsent db) n))
        ((missingCats db).foldl insertCategoryIfAbsent db)) :=
    foldl_extends CatalogExtends catalogExtends_refl
      (fun _ _ _ x y => catalogExtends_trans x y) _
      (fun d n => insertExerciseIfAbsent_extends d n _) _ _
  have h3 := foldl_extends CatalogExtends catalogExtends_refl
    (fun _ _ _ x y => catalogExtends_trans x y) linkStep linkStep_extends
    (basePairs ((missingExs ((missingCats db).foldl insertCategoryIfAbsent db)).foldl
        (fun d n => insertExerciseIfAbsent d n
          (baseNotesOf ((missingCats db).foldl insertCategoryIfAbsent db) n))
        ((missingCats db).foldl insertCategoryIfAbsent db)))
    ((missingExs ((missingCats db).foldl insertCategoryIfAbsent db)).foldl
        (fun d n => insertExerciseIfAbsent d n
          (baseNotesOf ((missingCats db).foldl insertCategoryIfAbsent db) n))
        ((missingCats db).foldl insertCategoryIfAbsent db))
  exact catalogExtends_trans h1 (catalogExtends_trans h2 h3)

def NodupCatalog (db : DB) : Prop :=
  (db.categories.map (fun c => c.name)).Nodup ∧
  (db.exerciselibrary.map (fun r => r.name)).Nodup ∧
  (db.exercisecategories.map (fun l => (l.exerciseId, l.categoryId))).Nodup

instance (db : DB) : Decidable (NodupCatalog db) := by
  unfold NodupCatalog; infer_instance

theorem insertCategoryIfAbsent_nodup (db : DB) (n : String) (h : NodupCatalog db) :
    NodupCatalog (insertCategoryIfAbsent db n) := by
  unfold insertCategoryIfAbsent
  split
  · exact h
  · rename_i hn
    refine ⟨?_, h.2.1, h.2.2⟩
    rw [List.map_append]
    refine List.Nodup.append h.1 (List.nodup_singleton _) ?_
    rw [List.map_singleton, List.disjoint_singleton]
    exact hn

theorem insertExerciseIfAbsent_nodup (db : DB) (n notes : String) (h : NodupCatalog db) :
    NodupCatalog (insertExerciseIfAbsent db n notes) := by
  unfold insertExerciseIfAbsent
  split
  · exact h
  · rename_i hn
    refine ⟨h.1, ?_, h.2.2⟩
    rw [List.map_append]
    refine List.Nodup.append h.2.1 (List.nodup_singleton _) ?_
    rw [List.map_singleton, List.disjoint_singleton]
    exact hn

theorem insertLinkIfAbsent_nodup (db : DB) (exId catId : Nat) (h : NodupCatalog db) :
    NodupCatalog (insertLinkIfAbsent db exId catId) := by
  unfold insertLinkIfAbsent
  split
  · exact h
  · rename_i hn
    refine ⟨h.1, h.2.1, ?_⟩
    rw [List.map_append]
    refine List.Nodup.append h.2.2 (List.nodup_singleton _) ?_
    rw [List.map_singleton, List.disjoint_singleton]
    exact hn

theorem linkStep_nodup (db : DB) (pr : String × String) (h : NodupCatalog db) :
    NodupCatalog (linkStep db pr) := by
  unfold linkStep
  split
  · exact insertLinkIfAbsent_nodup db _ _ h
  · exact h

theorem foldl_preserves {α : Type _} (P : DB → Prop) (step : DB → α → DB)
    (hstep : ∀ d x, P d → P (step d x)) :
    ∀ (l : List α) (d : DB), P d → P (l.foldl step d) := by
  intro l
  induction l with
  | nil => intro d hd; exact hd
  | cons x rest ih => intro d hd; exact ih (step d x) (hstep d x hd)

theorem syncPure_nodup (db : DB) (h : NodupCatalog db) : NodupCatalog (syncPure db) := by
  refine foldl_preserves NodupCatalog linkStep linkStep_nodup _ _ ?_
  refine foldl_preserves NodupCatalog _ (fun d n => insertExerciseIfAbsent_nodup d n _) _ _ ?_
  exact foldl_preserves NodupCatalog insertCategoryIfAbsent insertCategoryIfAbsent_nodup _ _ h

def BaseExtends (a b : DB) : Prop :=
  ExtMissing (fun c : BaseCatRow => c.name) a.baseCategories b.baseCategories ∧
  ExtMissing (fun e : BaseExRow => e.name) a.baseExercises b.baseExercises ∧
  ExtMissing (fun l : BaseLinkRow => (l.exerciseId, l.categoryId)) a.baseLinks b.baseLinks ∧
  b.categories = a.categories ∧ b.exerciselibrary = a.exerciselibrary ∧
  b.exercisecategories = a.exercisecategories

theorem baseExtends_refl (a : DB) : BaseExtends a a :=
  ⟨extMissing_refl _ _, extMissing_refl _ _, extMissing_refl _ _, rfl, rfl, rfl⟩

theorem baseExtends_trans {a b c : DB} (h1 : BaseExtends a b) (h2 : BaseExtends b c) :
    BaseExtends a c :=
  ⟨extMissing_trans _ h1.1 h2.1, extMissing_trans _ h1.2.1 h2.2.1,
   extMissing_trans _ h1.2.2.1 h2.2.2.1, h2.2.2.2.1.trans h1.2.2.2.1,
   h2.2.2.2.2.1.trans h1.2.2.2.2.1, h2.2.2.2.2.2.trans h1.2.2.2.2.2⟩

theorem insertBaseCategoryIfAbsent_extends (db : DB) (n : String) :
    BaseExtends db (insertBaseCategoryIfAbsent db n) := by
  unfold insertBaseCategoryIfAbsent
  split
  · exact baseExtends_refl db
  · rename_i hn
    refine ⟨⟨[⟨db.nextId, n⟩], rfl, ?_⟩, extMissing_refl _ _, extMissing_refl _ _,
      rfl, rfl, rfl⟩
    intro x hx
    simp at hx
    rw [hx]
    exact hn

theorem findOrInsertBaseCategory_extends (db : DB) (n : String) :
    BaseExtends db (findOrInsertBaseCategory db n).1 := by
  unfold findOrInsertBaseCategory
  split
  · exact baseExtends_refl db
  · rename_i hfind
    refine ⟨⟨[⟨db.nextId, n⟩], rfl, ?_⟩, extMissing_refl _ _, extMissing_refl _ _,
      rfl, rfl, rfl⟩
    intro x hx
    simp at hx
    rw [hx]
    intro hmem
    rw [List.mem_map] at hmem
    obtain ⟨c, hc, hcn⟩ := hmem
    exact absurd (List.find?_eq_none.mp hfind c hc) (by simp [hcn])

theorem insertBaseLinkIfAbsent_extends (db : DB) (exId catId : Nat) :
    BaseExtends db (insertBaseLinkIfAbsent db exId catId) := by
  unfold insertBaseLinkIfAbsent
  split
  · exact baseExtends_refl db
  · rename_i hn
    refine ⟨extMissing_refl _ _, extMissing_refl _ _, ⟨[⟨exId, catId⟩], rfl, ?_⟩,
      rfl, rfl, rfl⟩
    intro x hx
    simp at hx
    rw [hx]
    exact hn

theorem insert_base_exercise_to_library_extends (db : DB) (exName notes : String)
    (catNames : List String) :
    BaseExtends db (insert_base_exercise_to_library db exName notes catNames) := by
  unfold insert_base_exercise_to_library
  have hstep : ∀ (exId : Nat) (d : DB) (cn : String),
      BaseExtends d (insertBaseLinkIfAbsent (findOrInsertBaseCategory d cn.trim).1 exId
        (findOrInsertBaseCategory d cn.trim).2) := by
    intro exId d cn
    exact baseExtends_trans (findOrInsertBaseCategory_extends d cn.trim)
      (insertBaseLinkIfAbsent_extends _ _ _)
  split
  · rename_i e heq
    exact foldl_extends BaseExtends baseExtends_refl
      (fun _ _ _ x y => baseExtends_trans x y) _ (hstep e.id) catNames db
  · rename_i heq
    refine baseExtends_trans ?_
      (foldl_extends BaseExtends baseExtends_refl
        (fun _ _ _ x y => baseExtends_trans x y) _ (hstep db.nextId) catNames _)
    refine ⟨extMissing_refl _ _, ⟨[⟨db.nextId, exName, notes⟩], rfl, ?_⟩,
      extMissing_refl _ _, rfl, rfl, rfl⟩
    intro x hx
    simp at hx
    rw [hx]
    intro hmem
    rw [List.mem_map] at hmem
    obtain ⟨e, he, hen⟩ := hmem
    exact absurd (List.find?_eq_none.mp heq e he) (by simp [hen])

set_option maxRecDepth 4000 in
theorem seed_base_data_extends (st : AppState) : BaseExtends st.db (seed_base_data st).db := by
  unfold seed_base_data
  split
  · exact baseExtends_refl _
  · dsimp only
    refine baseExtends_trans
      (foldl_extends BaseExtends baseExtends_refl
        (fun _ _ _ x y => baseExtends_trans x y) insertBaseCategoryIfAbsent
        insertBaseCategoryIfAbsent_extends commonCategories st.db) ?_
    exact foldl_extends BaseExtends baseExtends_refl
      (fun _ _ _ x y => baseExtends_trans x y) _
      (fun (d : DB) (e : String × String × List String) =>
        insert_base_exercise_to_library_extends d e.1 e.2.1 e.2.2) _ _

/-! ### The synchronizer and seeding claims -/

/-- C10.  Calling the synchronizer with a missing user id only logs a
warning: the returned state keeps the database, the per-user sync flags
and everything else unchanged, and this holds for every fuel value --
in particular for fuel zero, under which executing even one SQL statement
would fail, so no catalog statement is executed at all. -/
theorem C10_sync_without_user_is_noop (st : AppState) (f : Fuel) :
    sync_user_data none st f = { st with log := st.log ++ [noneUserWarning] } := rfl

/-- C5.  One sync call runs inside one transaction: when any statement of
the body raises -- whatever the failure point f -- the call returns with
the database exactly in its pre-sync state, the sync flag not set, and the
error logged; the function returns normally rather than propagating. -/
theorem C5_sync_failure_rolls_back_all_phases (st : AppState) (u : String) (f : Fuel)
    (hu : ¬ u ∈ st.syncedUsers) (hfail : syncBody st.db f = none) :
    sync_user_data (some u) st f =
      { st with log := (st.log ++
          [LogEntry.info ("Syncing base data for user " ++ u ++ "...")]) ++
          [syncErrorEntry] } := by
  simp only [sync_user_data, if_neg hu]
  rw [hfail]

/-- Witness for C5: with fuel zero the very first SELECT raises; the state
comes back with the catalog untouched and the error logged. -/
theorem C5_witness :
    (¬ "u1" ∈ ({} : AppState).syncedUsers) ∧
    syncBody ({} : AppState).db (some 0) = none ∧
    sync_user_data (some "u1") {} (some 0) =
      { ({} : AppState) with log := (({} : AppState).log ++
          [LogEntry.info ("Syncing base data for user " ++ "u1" ++ "...")]) ++
          [syncErrorEntry] } :=
  ⟨by decide, by decide,
    C5_sync_failure_rolls_back_all_phases {} "u1" (some 0) (by decide) (by decide)⟩

/-- C4.  Running the synchronizer twice in sequence for the same user
leaves the same database as running it once (the second run is suppressed
by the per-user session flag, and with the flag absent the set-difference
and insert-if-absent logic writes nothing new), and a duplicate-free user
catalog stays duplicate-free. -/
theorem C4_sync_idempotent (st : AppState) (uid : Option String) (f2 : Fuel) :
    (sync_user_data uid (sync_user_data uid st none) f2).db =
      (sync_user_data uid st none).db ∧
    (NodupCatalog st.db → NodupCatalog (sync_user_data uid st none).db) := by
  cases uid with
  | none => exact ⟨rfl, fun h => h⟩
  | some u =>
      by_cases hu : u ∈ st.syncedUsers
      · have h1 : sync_user_data (some u) st none = st := by
          simp only [sync_user_data, if_pos hu]
        have h2 : sync_user_data (some u) st f2 = st := by
          simp only [sync_user_data, if_pos hu]
        rw [h1, h2]
        exact ⟨rfl, fun h => h⟩
      · have h1 : sync_user_data (some u) st none =
            { st with db := syncPure st.db
                      syncedUsers := st.syncedUsers ++ [u]
                      log := (st.log ++
                        [LogEntry.info ("Syncing base data for user " ++ u ++ "...")]) ++
                        [LogEntry.info ("Data sync complete for user " ++ u ++ ".")] } := by
          simp only [sync_user_data, if_neg hu]
          rw [syncBody_fuelless]
        rw [h1]
        constructor
        · have hm : u ∈ (st.syncedUsers ++ [u]) := by simp
          simp only [sync_user_data]
          rw [if_pos hm]
        · intro h
          exact syncPure_nodup st.db h

/-- Witness for C4 at a concrete state: the sample catalog is
duplicate-free, a second sync for the same user leaves the database of the
first, and the catalog is still duplicate-free. -/
theorem C4_witness :
    NodupCatalog sampleDb ∧
    ((sync_user_data (some "u1") (sync_user_data (some "u1") { db := sampleDb } none)
        none).db = (sync_user_data (some "u1") { db := sampleDb } none).db) ∧
    NodupCatalog (sync_user_data (some "u1") { db := sampleDb } none).db := by
  have h := C4_sync_idempotent { db := sampleDb } (some "u1") none
  exact ⟨by decide, h.1, h.2 (by decide)⟩

/-- C9.  The planning flow only grows the catalogs: for any state, user
and failure point, the synchronizer leaves the user catalog extended by
rows whose keys were absent (never deleting or mutating a pre-existing
row) and the base tables untouched; the seeding routine likewise only
appends missing rows to the base tables and leaves the user catalog
untouched. -/
theorem C9_catalog_only_grows (st : AppState) (uid : Option String) (f : Fuel) :
    CatalogExtends st.db (sync_user_data uid st f).db ∧
    BaseExtends st.db (seed_base_data st).db := by
  refine ⟨?_, seed_base_data_extends st⟩
  cases uid with
  | none => exact catalogExtends_refl _
  | some u =>
      by_cases hu : u ∈ st.syncedUsers
      · simp only [sync_user_data, if_pos hu]
        exact catalogExtends_refl _
      · simp only [sync_user_data, if_neg hu]
        cases hb : syncBody st.db f with
        | none => exact catalogExtends_refl _
        | some p =>
            dsimp only
            rw [syncBody_some st.db f p hb]
            exact syncPure_extends st.db

/-- Witness for C6 at a concrete store: generate a one-week plan into the
sample catalog, delete macrocycle 3, and the detail fetch finds nothing
and no week of it remains. -/
theorem C6_witness :
    get_macrocycle_detail (delete_macrocycle
      (generate sampleDb "Winter Bulk" 1 sampleTemplates).1 3) 3 = none ∧
    ∀ m ∈ (delete_macrocycle
      (generate sampleDb "Winter Bulk" 1 sampleTemplates).1 3).minicycles,
      m.macroId ≠ 3 :=
  ⟨(C6_delete_macrocycle_cascades _ 3).1, (C6_delete_macrocycle_cascades _ 3).2.1⟩

/-- Witness for C9 at a concrete state: one sync and one seeding run on
the sample catalog only extend the respective tables. -/
theorem C9_witness :
    CatalogExtends sampleDb (sync_user_data (some "u1") { db := sampleDb } none).db ∧
    BaseExtends sampleDb (seed_base_data { db := sampleDb }).db :=
  C9_catalog_only_grows { db := sampleDb } (some "u1") none

end LiftingApp
